import Mathlib

/-!
Verification development for the pysolr-tornado client (source file
pysolrtornado.py) against its natural-language specification.

The Python source is shallowly embedded: Python byte strings are lists of
Nat (each < 256), Python str values are Lean String values, machine-level
behaviour (UTF-8 encoding and decoding) is spelled out explicitly, and
fallible Python code returns Except values carrying the exception kind.
-/

namespace PysolrTornado

/-- Python exception kinds that the embedded code can raise or catch. -/
inductive PyErr where
  | valueError (msg : String)
  | solrError (msg : String)
  | unicodeDecodeError
  | attributeError
  | typeError
  | indexError
  deriving DecidableEq, Repr

/-! ## UTF-8 byte model

The source moves between str and bytes with force_bytes / force_unicode
(lines 95-126) and sanitize (lines 1169-1175) works on the byte encoding,
so the embedding carries an explicit UTF-8 codec over lists of Nat. -/

/-- UTF-8 encoding of one unicode scalar value given as a Nat. -/
def utf8EncodeNat (n : Nat) : List Nat :=
  if n < 0x80 then [n]
  else if n < 0x800 then [0xC0 + n / 64, 0x80 + n % 64]
  else if n < 0x10000 then [0xE0 + n / 4096, 0x80 + n / 64 % 64, 0x80 + n % 64]
  else [0xF0 + n / 262144, 0x80 + n / 4096 % 64, 0x80 + n / 64 % 64, 0x80 + n % 64]

/-- UTF-8 encoding of one character. -/
def utf8EncodeChar (c : Char) : List Nat := utf8EncodeNat c.toNat

/-- UTF-8 encoding of a character list. -/
def utf8EncodeList : List Char → List Nat
  | [] => []
  | c :: cs => utf8EncodeChar c ++ utf8EncodeList cs

/-- Model of force_bytes (source lines 115-126): on Python 3 it is
str.encode("utf-8", "backslashreplace"); Lean strings hold only valid
unicode scalar values, so this is plain UTF-8 encoding. -/
def forceBytes (s : String) : List Nat := utf8EncodeList s.data

/-- Test for a UTF-8 continuation byte. -/
def utf8Cont (b : Nat) : Bool := 0x80 ≤ b && b < 0xC0

/-- One step of a UTF-8 decoder: decode the leading scalar value and return
it with the remaining bytes.  Overlong forms, surrogates and out-of-range
values are rejected (result none), as CPython rejects them. -/
def utf8DecodeStep : List Nat → Option (Nat × List Nat)
  | [] => none
  | b :: r =>
    if b < 0x80 then some (b, r)
    else if b < 0xC2 then none
    else if b < 0xE0 then
      match r with
      | b1 :: r1 => if utf8Cont b1 then some ((b - 0xC0) * 64 + (b1 - 0x80), r1) else none
      | [] => none
    else if b < 0xF0 then
      match r with
      | b1 :: b2 :: r2 =>
        if utf8Cont b1 && utf8Cont b2 then
          let v := (b - 0xE0) * 4096 + (b1 - 0x80) * 64 + (b2 - 0x80)
          if 0x800 ≤ v && !(0xD800 ≤ v && v ≤ 0xDFFF) then some (v, r2) else none
        else none
      | _ => none
    else if b < 0xF5 then
      match r with
      | b1 :: b2 :: b3 :: r3 =>
        if utf8Cont b1 && utf8Cont b2 && utf8Cont b3 then
          let v := (b - 0xF0) * 262144 + (b1 - 0x80) * 4096 + (b2 - 0x80) * 64 + (b3 - 0x80)
          if 0x10000 ≤ v && v ≤ 0x10FFFF then some (v, r3) else none
        else none
      | _ => none
    else none

/-- Strict UTF-8 decoding, as bytes.decode() with the default errors="strict":
any invalid sequence makes the whole decode fail.  Fuel-based recursion; the
wrapper passes the list length, which always suffices because every step
consumes at least one byte. -/
def utf8DecodeStrictGo : Nat → List Nat → Option (List Char)
  | _, [] => some []
  | 0, _ :: _ => none
  | fuel + 1, b :: r =>
    match utf8DecodeStep (b :: r) with
    | some (v, r1) =>
      match utf8DecodeStrictGo fuel r1 with
      | some cs => some (Char.ofNat v :: cs)
      | none => none
    | none => none

/-- Strict UTF-8 decoding of a byte list to a string, none on invalid input. -/
def utf8DecodeStrict (l : List Nat) : Option String :=
  (utf8DecodeStrictGo l.length l).map String.mk

/-- UTF-8 decoding with errors="replace": an invalid sequence yields U+FFFD
and decoding continues.  (CPython consumes a maximal invalid subpart per
replacement character; this model consumes one byte, which only differs on
invalid input, and the development only applies it to valid encodings.) -/
def utf8DecodeReplaceGo : Nat → List Nat → List Char
  | _, [] => []
  | 0, _ :: _ => []
  | fuel + 1, b :: r =>
    match utf8DecodeStep (b :: r) with
    | some (v, r1) => Char.ofNat v :: utf8DecodeReplaceGo fuel r1
    | none => Char.ofNat 0xFFFD :: utf8DecodeReplaceGo fuel r

/-- Model of force_unicode (source lines 95-112) applied to a bytes value:
value.decode("utf-8", errors="replace"). -/
def forceUnicodeBytes (l : List Nat) : String := ⟨utf8DecodeReplaceGo l.length l⟩

/-! ## Sanitizer (source lines 1136-1175) -/

/-- The first components of the REPLACEMENTS table (source lines 1136-1167):
the control bytes that sanitize removes.  0x09, 0x0A and 0x0D are absent. -/
def removedControlBytes : List Nat :=
  [0x00, 0x01, 0x02, 0x03, 0x04, 0x05, 0x06, 0x07, 0x08,
   0x0b, 0x0c,
   0x0e, 0x0f, 0x10, 0x11, 0x12, 0x13, 0x14, 0x15, 0x16, 0x17,
   0x18, 0x19, 0x1a, 0x1b, 0x1c, 0x1d, 0x1e, 0x1f]

/-- Model of fixed_string.replace(bad, b"") for a one-byte pattern: every
occurrence of the byte is removed. -/
def removeByte (l : List Nat) (bad : Nat) : List Nat := l.filter (fun b => b ≠ bad)

/-- The loop body of sanitize (source lines 1172-1173) over REPLACEMENTS. -/
def sanitizeBytes (l : List Nat) : List Nat := removedControlBytes.foldl removeByte l

/-- Model of sanitize (source lines 1169-1175): force_bytes, remove the
control bytes of REPLACEMENTS, force_unicode. -/
def sanitize (data : String) : String := forceUnicodeBytes (sanitizeBytes (forceBytes data))

/-- Predicate form of membership in removedControlBytes. -/
def isRemovedByte (b : Nat) : Bool := b < 32 && !(b == 9 || b == 10 || b == 13)

theorem mem_removedControlBytes (b : Nat) :
    (b ∈ removedControlBytes) ↔ isRemovedByte b = true := by
  simp only [removedControlBytes, isRemovedByte, List.mem_cons, List.not_mem_nil, or_false,
    Bool.and_eq_true, Bool.not_eq_true', Bool.or_eq_false_iff, beq_eq_false_iff_ne,
    decide_eq_true_eq, ne_eq]
  omega

/-! ### Facts about the UTF-8 codec -/

theorem char_toNat_valid (c : Char) :
    c.toNat < 0xD800 ∨ (0xE000 ≤ c.toNat ∧ c.toNat < 0x110000) := c.valid

theorem utf8EncodeNat_ne_nil (n : Nat) : utf8EncodeNat n ≠ [] := by
  unfold utf8EncodeNat
  split <;> try simp
  split <;> try simp
  split <;> simp

theorem utf8EncodeNat_ascii {n : Nat} (h : n < 0x80) : utf8EncodeNat n = [n] := by
  unfold utf8EncodeNat
  rw [if_pos h]

theorem utf8EncodeNat_high {n : Nat} (h : 0x80 ≤ n) :
    ∀ b ∈ utf8EncodeNat n, 0x80 ≤ b := by
  intro b hb
  unfold utf8EncodeNat at hb
  split at hb
  · omega
  · split at hb
    · simp only [List.mem_cons, List.not_mem_nil, or_false] at hb
      rcases hb with h1 | h1 <;> omega
    · split at hb
      · simp only [List.mem_cons, List.not_mem_nil, or_false] at hb
        rcases hb with h1 | h1 | h1 <;> omega
      · simp only [List.mem_cons, List.not_mem_nil, or_false] at hb
        rcases hb with h1 | h1 | h1 | h1 <;> omega

theorem utf8DecodeStep_encodeNat {n : Nat}
    (hv : n < 0xD800 ∨ (0xE000 ≤ n ∧ n < 0x110000)) (r : List Nat) :
    utf8DecodeStep (utf8EncodeNat n ++ r) = some (n, r) := by
  unfold utf8EncodeNat
  by_cases h1 : n < 0x80
  · rw [if_pos h1]
    simp only [List.cons_append, List.nil_append, utf8DecodeStep, if_pos h1]
  · rw [if_neg h1]
    by_cases h2 : n < 0x800
    · rw [if_pos h2]
      simp only [List.cons_append, List.nil_append]
      simp only [utf8DecodeStep]
      rw [if_neg (by omega), if_neg (by omega), if_pos (by omega)]
      simp only [utf8Cont]
      rw [if_pos (by simp only [Bool.and_eq_true, decide_eq_true_eq]; omega)]
      have hval : (0xC0 + n / 64 - 0xC0) * 64 + (0x80 + n % 64 - 0x80) = n := by omega
      rw [hval]
    · rw [if_neg h2]
      by_cases h3 : n < 0x10000
      · rw [if_pos h3]
        simp only [List.cons_append, List.nil_append]
        simp only [utf8DecodeStep]
        rw [if_neg (by omega), if_neg (by omega), if_neg (by omega), if_pos (by omega)]
        simp only [utf8Cont]
        rw [if_pos (by simp only [Bool.and_eq_true, decide_eq_true_eq]; omega)]
        have hval : (0xE0 + n / 4096 - 0xE0) * 4096 + (0x80 + n / 64 % 64 - 0x80) * 64 +
            (0x80 + n % 64 - 0x80) = n := by omega
        rw [if_pos]
        · rw [hval]
        · simp only [hval, Bool.and_eq_true, Bool.not_eq_true', Bool.and_eq_false_iff,
            decide_eq_true_eq, decide_eq_false_iff_not, not_le]
          omega
      · rw [if_neg h3]
        simp only [List.cons_append, List.nil_append]
        simp only [utf8DecodeStep]
        rw [if_neg (by omega), if_neg (by omega), if_neg (by omega), if_neg (by omega),
          if_pos (by omega)]
        simp only [utf8Cont]
        rw [if_pos (by simp only [Bool.and_eq_true, decide_eq_true_eq]; omega)]
        have hval : (0xF0 + n / 262144 - 0xF0) * 262144 + (0x80 + n / 4096 % 64 - 0x80) * 4096 +
            (0x80 + n / 64 % 64 - 0x80) * 64 + (0x80 + n % 64 - 0x80) = n := by omega
        rw [if_pos]
        · rw [hval]
        · simp only [hval, Bool.and_eq_true, decide_eq_true_eq]
          omega

theorem utf8DecodeStep_encodeChar (c : Char) (r : List Nat) :
    utf8DecodeStep (utf8EncodeChar c ++ r) = some (c.toNat, r) :=
  utf8DecodeStep_encodeNat (char_toNat_valid c) r

theorem utf8EncodeList_append (l1 l2 : List Char) :
    utf8EncodeList (l1 ++ l2) = utf8EncodeList l1 ++ utf8EncodeList l2 := by
  induction l1 with
  | nil => simp [utf8EncodeList]
  | cons c cs ih => simp [utf8EncodeList, ih]

/-- Round trip of the replace-mode decoder over valid encodings. -/
theorem utf8DecodeReplaceGo_encode (l : List Char) :
    ∀ fuel, (utf8EncodeList l).length ≤ fuel →
      utf8DecodeReplaceGo fuel (utf8EncodeList l) = l := by
  induction l with
  | nil => intro fuel _; simp [utf8EncodeList, utf8DecodeReplaceGo]
  | cons c cs ih =>
    intro fuel hfuel
    obtain ⟨b, bs, hb⟩ : ∃ b bs, utf8EncodeChar c = b :: bs := by
      rcases h : utf8EncodeChar c with _ | ⟨b, bs⟩
      · exact absurd h (utf8EncodeNat_ne_nil c.toNat)
      · exact ⟨b, bs, rfl⟩
    have hlist : utf8EncodeList (c :: cs) = b :: (bs ++ utf8EncodeList cs) := by
      simp [utf8EncodeList, hb]
    rw [hlist] at hfuel ⊢
    rcases fuel with _ | fuel
    · simp at hfuel
    · have hstep : utf8DecodeStep (b :: (bs ++ utf8EncodeList cs)) = some (c.toNat, utf8EncodeList cs) := by
        have := utf8DecodeStep_encodeChar c (utf8EncodeList cs)
        rwa [hb, List.cons_append] at this
      simp only [utf8DecodeReplaceGo, hstep]
      rw [Char.ofNat_toNat, ih fuel (by simp at hfuel; omega)]

theorem forceUnicodeBytes_encodeList (l : List Char) :
    forceUnicodeBytes (utf8EncodeList l) = ⟨l⟩ := by
  unfold forceUnicodeBytes
  rw [utf8DecodeReplaceGo_encode l _ (Nat.le_refl _)]

/-! ### Sanitizer facts -/

theorem foldl_removeByte (bs : List Nat) (l : List Nat) :
    bs.foldl removeByte l = l.filter (fun b => !(decide (b ∈ bs))) := by
  induction bs generalizing l with
  | nil => simp [List.filter_eq_self]
  | cons b0 bs ih =>
    simp only [List.foldl_cons, removeByte, ih, List.filter_filter]
    apply List.filter_congr
    intro a _
    by_cases h0 : a = b0 <;> simp [h0]

theorem sanitizeBytes_eq_filter (l : List Nat) :
    sanitizeBytes l = l.filter (fun b => !(isRemovedByte b)) := by
  rw [sanitizeBytes, foldl_removeByte]
  apply List.filter_congr
  intro a _
  by_cases h : isRemovedByte a = true
  · simp [h, (mem_removedControlBytes a).mpr h]
  · have : ¬ a ∈ removedControlBytes := fun hm => h ((mem_removedControlBytes a).mp hm)
    simp only [Bool.not_eq_true] at h
    simp [this, h]

/-- Removing the control bytes from an encoded string is the encoding of the
string with the corresponding characters removed: the removed bytes are
single-byte ASCII encodings, and multi-byte encodings contain no byte below
0x80. -/
theorem sanitizeBytes_encodeList (l : List Char) :
    sanitizeBytes (utf8EncodeList l) =
      utf8EncodeList (l.filter (fun c => !(isRemovedByte c.toNat))) := by
  rw [sanitizeBytes_eq_filter]
  induction l with
  | nil => simp [utf8EncodeList]
  | cons c cs ih =>
    simp only [utf8EncodeList, List.filter_append, ih, List.filter_cons]
    by_cases hk : isRemovedByte c.toNat = true
    · have hlow : c.toNat < 0x80 := by
        have : c.toNat < 32 := by
          have := hk
          unfold isRemovedByte at this
          simp only [Bool.and_eq_true, decide_eq_true_eq] at this
          exact this.1
        omega
      have henc : utf8EncodeChar c = [c.toNat] := utf8EncodeNat_ascii hlow
      simp only [hk, Bool.not_true, henc, List.filter_cons, List.filter_nil]
      simp [hk, utf8EncodeList]
    · have hfix : (utf8EncodeChar c).filter (fun b => !(isRemovedByte b)) = utf8EncodeChar c := by
        apply List.filter_eq_self.mpr
        intro b hb
        by_cases hlow : c.toNat < 0x80
        · have henc : utf8EncodeChar c = [c.toNat] := utf8EncodeNat_ascii hlow
          rw [henc] at hb
          simp only [List.mem_cons, List.not_mem_nil, or_false] at hb
          subst hb
          simp only [Bool.not_eq_true', Bool.not_eq_true] at hk ⊢
          exact hk
        · have := utf8EncodeNat_high (n := c.toNat) (by omega) b hb
          have : isRemovedByte b = false := by
            unfold isRemovedByte
            simp only [Bool.and_eq_false_iff, decide_eq_false_iff_not, not_lt]
            left
            omega
          simp [this]
      simp only [Bool.not_eq_true', Bool.not_eq_true] at hk
      simp only [hk, Bool.not_false, hfix, utf8EncodeList, if_pos]

/-- Closed form of sanitize: it removes exactly the characters whose code
points are the removed control bytes. -/
theorem sanitize_eq_filter (s : String) :
    sanitize s = ⟨s.data.filter (fun c => !(isRemovedByte c.toNat))⟩ := by
  unfold sanitize forceBytes
  rw [sanitizeBytes_encodeList, forceUnicodeBytes_encodeList]

/-- C5: sanitize is idempotent, and a string containing none of the removed
control characters (0x00-0x08, 0x0B-0x0C, 0x0E-0x1F) is returned unchanged. -/
theorem sanitize_idempotent_and_clean_id (s : String) :
    sanitize (sanitize s) = sanitize s ∧
      (s.data.all (fun c => !(isRemovedByte c.toNat)) = true → sanitize s = s) := by
  constructor
  · rw [sanitize_eq_filter s, sanitize_eq_filter, List.filter_filter]
    congr 1
    apply List.filter_congr
    intro a _
    by_cases h : isRemovedByte a.toNat = true <;> simp [h]
  · intro hclean
    rw [sanitize_eq_filter s]
    have : s.data.filter (fun c => !(isRemovedByte c.toNat)) = s.data := by
      apply List.filter_eq_self.mpr
      intro a ha
      exact List.all_eq_true.mp hclean a ha
    rw [this]

/-- Witness for C5 at a concrete input: the string "ab\x09c" is clean (tab is
kept by sanitize) and sanitize leaves it unchanged; idempotence holds there. -/
theorem sanitize_idempotent_witness :
    ("ab\x09c".data.all (fun c => !(isRemovedByte c.toNat)) = true) ∧
      sanitize (sanitize "ab\x09c") = sanitize "ab\x09c" ∧ sanitize "ab\x09c" = "ab\x09c" := by
  refine ⟨by decide, (sanitize_idempotent_and_clean_id "ab\x09c").1,
    (sanitize_idempotent_and_clean_id "ab\x09c").2 (by decide)⟩

/-! ## Decimal digits and Python integer printing and parsing

The Value Codec (source lines 583-662) prints numbers with str() and parses
wire text with ast.literal_eval; both directions are modelled explicitly. -/

/-- Character for one decimal digit. -/
def digitChar (d : Nat) : Char := Char.ofNat (48 + d)

/-- Decimal digits of a Nat, least significant first, fuel-based. -/
def natDigitsGo : Nat → Nat → List Nat
  | 0, n => [n]
  | fuel + 1, n => if n < 10 then [n] else n % 10 :: natDigitsGo fuel (n / 10)

/-- Decimal digits of a Nat, least significant first. -/
def natDigits (n : Nat) : List Nat := natDigitsGo n n

/-- Characters of str(n) for a nonnegative n. -/
def natStrChars (n : Nat) : List Char := (natDigits n).reverse.map digitChar

/-- Characters of str(n) for a Python int. -/
def intStrChars (n : Int) : List Char :=
  if n < 0 then '-' :: natStrChars n.natAbs else natStrChars n.toNat

/-- Model of str(n) for a Python int. -/
def pyIntStr (n : Int) : String := ⟨intStrChars n⟩

/-- Value of a least-significant-first digit list. -/
def digitsVal : List Nat → Nat
  | [] => 0
  | d :: ds => d + 10 * digitsVal ds

/-- Parse of a nonempty all-digit character list without a leading zero, as a
Python 3 decimal integer literal (leading zeros are a syntax error). -/
def parseNatLit (l : List Char) : Option Nat :=
  if l = [] then none
  else if !(l.all fun c => c.isDigit) then none
  else if l.length > 1 && l.head? == some '0' then none
  else some (l.foldl (fun a c => a * 10 + (c.toNat - 48)) 0)

/-- Parse of a Python integer literal with an optional unary sign, as
ast.literal_eval accepts it. -/
def parseIntLit (l : List Char) : Option Int :=
  match l with
  | [] => none
  | c :: rest =>
    if c = '-' then (parseNatLit rest).map (fun m : Nat => -(m : Int))
    else if c = '+' then (parseNatLit rest).map (fun m : Nat => (m : Int))
    else (parseNatLit (c :: rest)).map (fun m : Nat => (m : Int))

theorem digitChar_isDigit {d : Nat} (h : d < 10) : (digitChar d).isDigit = true := by
  interval_cases d <;> decide

theorem digitChar_toNat {d : Nat} (h : d < 10) : (digitChar d).toNat = 48 + d := by
  interval_cases d <;> decide

theorem digitChar_ne_zero {d : Nat} (h0 : d ≠ 0) (h : d < 10) : digitChar d ≠ '0' := by
  interval_cases d <;> simp_all <;> decide

theorem natDigitsGo_lt_ten {fuel n : Nat} (h : n ≤ fuel) :
    ∀ d ∈ natDigitsGo fuel n, d < 10 := by
  induction fuel generalizing n with
  | zero =>
    intro d hd
    simp only [natDigitsGo, List.mem_cons, List.not_mem_nil, or_false] at hd
    omega
  | succ fuel ih =>
    intro d hd
    simp only [natDigitsGo] at hd
    split at hd
    · simp only [List.mem_cons, List.not_mem_nil, or_false] at hd
      omega
    · simp only [List.mem_cons] at hd
      rcases hd with hd | hd
      · omega
      · exact ih (by omega) d hd

theorem natDigitsGo_val {fuel n : Nat} (h : n ≤ fuel) :
    digitsVal (natDigitsGo fuel n) = n := by
  induction fuel generalizing n with
  | zero => simp only [natDigitsGo, digitsVal]; omega
  | succ fuel ih =>
    simp only [natDigitsGo]
    split
    · simp [digitsVal]
    · rw [digitsVal, ih (by omega)]
      omega

theorem natDigitsGo_ne_nil (fuel n : Nat) : natDigitsGo fuel n ≠ [] := by
  cases fuel with
  | zero => simp [natDigitsGo]
  | succ fuel =>
    simp only [natDigitsGo]
    split <;> simp

theorem natDigitsGo_getLast_ne_zero {fuel n : Nat} (h : n ≤ fuel) (h10 : 1 ≤ n) :
    ∀ hne, (natDigitsGo fuel n).getLast hne ≠ 0 := by
  induction fuel generalizing n with
  | zero => intro hne; simp only [natDigitsGo]; simp [List.getLast]; omega
  | succ fuel ih =>
    intro hne
    by_cases hlt : n < 10
    · simp only [natDigitsGo, if_pos hlt]
      simp [List.getLast]
      omega
    · have hgo : natDigitsGo (fuel + 1) n = n % 10 :: natDigitsGo fuel (n / 10) := by
        simp [natDigitsGo, hlt]
      rw [List.getLast_congr _ _ hgo, List.getLast_cons (natDigitsGo_ne_nil _ _)]
      exact ih (by omega) (by omega) (natDigitsGo_ne_nil _ _)

theorem natDigits_length_one_iff (n : Nat) : (natDigits n).length = 1 ↔ n < 10 := by
  unfold natDigits
  cases n with
  | zero => simp [natDigitsGo]
  | succ m =>
    simp only [natDigitsGo]
    split
    · simp; omega
    · have := natDigitsGo_ne_nil m ((m + 1) / 10)
      constructor
      · intro h
        exfalso
        simp only [List.length_cons] at h
        exact this (List.length_eq_zero.mp (by omega))
      · omega

theorem foldl_digits_reverse (l : List Nat) (hd : ∀ d ∈ l, d < 10) :
    (l.reverse.map digitChar).foldl (fun a c => a * 10 + (c.toNat - 48)) 0 = digitsVal l := by
  induction l with
  | nil => simp [digitsVal]
  | cons d ds ih =>
    simp only [List.reverse_cons, List.map_append, List.foldl_append, List.map_cons,
      List.map_nil, List.foldl_cons, List.foldl_nil, digitsVal]
    rw [ih (fun x hx => hd x (List.mem_cons_of_mem d hx))]
    rw [digitChar_toNat (hd d (List.mem_cons_self d ds))]
    omega

theorem parseNatLit_natStrChars (n : Nat) : parseNatLit (natStrChars n) = some n := by
  have hdig : ∀ d ∈ natDigits n, d < 10 := natDigitsGo_lt_ten (Nat.le_refl n)
  have hne : natStrChars n ≠ [] := by
    unfold natStrChars
    simp only [ne_eq, List.map_eq_nil_iff, List.reverse_eq_nil_iff]
    exact natDigitsGo_ne_nil n n
  have hall : ((natStrChars n).all (fun c => c.isDigit)) = true := by
    apply List.all_eq_true.mpr
    intro c hc
    unfold natStrChars at hc
    simp only [List.mem_map, List.mem_reverse] at hc
    obtain ⟨d, hdm, rfl⟩ := hc
    exact digitChar_isDigit (hdig d hdm)
  have hlead : ¬(((natStrChars n).length > 1 && ((natStrChars n).head? == some '0')) = true) := by
    simp only [Bool.and_eq_true, beq_iff_eq, decide_eq_true_eq, not_and]
    intro hlen
    have hlarge : ¬ n < 10 := by
      intro hn
      have := (natDigits_length_one_iff n).mpr hn
      unfold natStrChars at hlen
      simp only [List.length_map, List.length_reverse] at hlen
      omega
    unfold natStrChars
    intro hhead
    have hg : natDigits n ≠ [] := natDigitsGo_ne_nil n n
    rw [List.head?_eq_head (by simp [hg])] at hhead
    simp only [Option.some_inj] at hhead
    rw [List.head_map, List.head_reverse] at hhead
    exact digitChar_ne_zero
      (natDigitsGo_getLast_ne_zero (Nat.le_refl n) (by omega) hg)
      (hdig _ (List.getLast_mem hg)) hhead
  unfold parseNatLit
  rw [if_neg hne, if_neg (by simp [hall]), if_neg hlead]
  unfold natStrChars
  rw [foldl_digits_reverse _ hdig, natDigits, natDigitsGo_val (Nat.le_refl n)]

theorem natStrChars_digits (n : Nat) : ∀ c ∈ natStrChars n, c.isDigit = true := by
  intro c hc
  unfold natStrChars at hc
  simp only [List.mem_map, List.mem_reverse] at hc
  obtain ⟨d, hdm, rfl⟩ := hc
  exact digitChar_isDigit (natDigitsGo_lt_ten (Nat.le_refl n) d hdm)

theorem intStrChars_mem (n : Int) : ∀ c ∈ intStrChars n, c = '-' ∨ c.isDigit = true := by
  intro c hc
  unfold intStrChars at hc
  split at hc
  · rcases List.mem_cons.mp hc with h | h
    · exact Or.inl h
    · exact Or.inr (natStrChars_digits _ c h)
  · exact Or.inr (natStrChars_digits _ c hc)

theorem parseIntLit_intStrChars (n : Int) : parseIntLit (intStrChars n) = some n := by
  unfold intStrChars
  by_cases hneg : n < 0
  · rw [if_pos hneg]
    have hred : parseIntLit ('-' :: natStrChars n.natAbs) =
        (parseNatLit (natStrChars n.natAbs)).map (fun m : Nat => -(m : Int)) := by
      simp [parseIntLit]
    rw [hred, parseNatLit_natStrChars]
    simp only [Option.map_some', Option.some_inj]
    omega
  · rw [if_neg hneg]
    rcases hsh : natStrChars n.toNat with _ | ⟨c, rest⟩
    · exact absurd hsh (by
        unfold natStrChars
        simp only [ne_eq, List.map_eq_nil_iff, List.reverse_eq_nil_iff]
        exact natDigitsGo_ne_nil _ _)
    · have hcd : c.isDigit = true := natStrChars_digits n.toNat c (by rw [hsh]; exact List.mem_cons_self _ _)
      have hc1 : ¬(c = '-') := by intro h; rw [h] at hcd; simp [Char.isDigit] at hcd
      have hc2 : ¬(c = '+') := by intro h; rw [h] at hcd; simp [Char.isDigit] at hcd
      have hred : parseIntLit (c :: rest) =
          (parseNatLit (c :: rest)).map (fun m : Nat => (m : Int)) := by
        simp [parseIntLit, hc1, hc2]
      rw [hred, ← hsh, parseNatLit_natStrChars]
      simp only [Option.map_some', Option.some_inj]
      omega

/-! ## Float literal grammar

Python floats are modelled by their repr string: CPython guarantees
float(repr(x)) == x and prints the shortest such literal, so a finite float
is identified with that literal.  The special values print as inf, -inf,
nan, which are names rather than literals, so ast.literal_eval rejects
them. -/

/-- Model of a Python float. -/
inductive PyFloat where
  | finite (r : String)
  | inf
  | ninf
  | nan
  deriving DecidableEq, Repr

/-- Model of str() on a float. -/
def pyFloatStr : PyFloat → String
  | .finite r => r
  | .inf => "inf"
  | .ninf => "-inf"
  | .nan => "nan"

/-- Split a character list into its leading digit run and the rest. -/
def digitSpan : List Char → (List Char × List Char)
  | [] => ([], [])
  | c :: r =>
    if c.isDigit then
      let (a, b) := digitSpan r
      (c :: a, b)
    else ([], c :: r)

/-- Exponent part of a float literal after the letter e: optional sign and a
nonempty digit run. -/
def floatLitExp (l : List Char) : Bool :=
  match l with
  | [] => false
  | c :: r =>
    if c = '+' ∨ c = '-' then !(r.isEmpty) && r.all (fun x => x.isDigit)
    else (c :: r).all (fun x => x.isDigit)

/-- Optional exponent at the end of a float literal. -/
def floatLitExpOpt (l : List Char) : Bool :=
  match l with
  | [] => true
  | c :: r => (c == 'e' || c == 'E') && floatLitExp r

/-- Unsigned body of a Python float literal: digits with a decimal point, or
digits followed by an exponent.  A pure digit run is an int literal, not a
float literal. -/
def floatLitBody (l : List Char) : Bool :=
  match digitSpan l with
  | (_, []) => false
  | (d1, c :: r2) =>
    if c = '.' then
      match digitSpan r2 with
      | (d2, r3) => (!(d1.isEmpty) || !(d2.isEmpty)) && floatLitExpOpt r3
    else (c == 'e' || c == 'E') && !(d1.isEmpty) && floatLitExp r2

/-- Python float literal with an optional unary sign. -/
def isFloatLit (l : List Char) : Bool :=
  match l with
  | [] => false
  | c :: r =>
    if c = '-' then floatLitBody r
    else if c = '+' then floatLitBody r
    else floatLitBody (c :: r)

theorem digitSpan_append_eq (l : List Char) :
    (digitSpan l).1 ++ (digitSpan l).2 = l := by
  induction l with
  | nil => simp [digitSpan]
  | cons c r ih =>
    simp only [digitSpan]
    split
    · simp only []
      rw [List.cons_append, ih]
    · simp

theorem digitSpan_fst_digits (l : List Char) : ∀ c ∈ (digitSpan l).1, c.isDigit = true := by
  induction l with
  | nil => simp [digitSpan]
  | cons c r ih =>
    simp only [digitSpan]
    split
    · intro x hx
      simp only [List.mem_cons] at hx
      rcases hx with rfl | hx
      · assumption
      · exact ih x hx
    · simp

theorem digitSpan_all_digits {l : List Char} (h : l.all (fun c => c.isDigit) = true) :
    digitSpan l = (l, []) := by
  induction l with
  | nil => simp [digitSpan]
  | cons c r ih =>
    simp only [List.all_cons, Bool.and_eq_true] at h
    simp [digitSpan, h.1, ih h.2]

theorem digitSpan_digits_append {l r : List Char} (h : l.all (fun c => c.isDigit) = true)
    (hr : (digitSpan r).1 = []) : digitSpan (l ++ r) = (l, r) := by
  induction l with
  | nil =>
    simp only [List.nil_append]
    have := digitSpan_append_eq r
    rw [hr] at this
    simp only [List.nil_append] at this
    rw [Prod.ext_iff, hr, this]
    exact ⟨rfl, rfl⟩
  | cons c cs ih =>
    simp only [List.all_cons, Bool.and_eq_true] at h
    simp [digitSpan, h.1, ih h.2]

/-- A float literal is not all digits, so the int literal parse rejects it. -/
theorem floatLitBody_parseNatLit {l : List Char} (h : floatLitBody l = true) :
    parseNatLit l = none := by
  unfold parseNatLit
  by_cases hall : l.all (fun c => c.isDigit) = true
  · exfalso
    unfold floatLitBody at h
    rw [digitSpan_all_digits hall] at h
    simp at h
  · rw [if_neg, if_pos (by simp [hall])]
    intro hnil
    subst hnil
    simp [floatLitBody, digitSpan] at h

theorem isFloatLit_parseIntLit {l : List Char} (h : isFloatLit l = true) :
    parseIntLit l = none := by
  rcases l with _ | ⟨c, r⟩
  · rfl
  · simp only [isFloatLit] at h
    simp only [parseIntLit]
    by_cases hc1 : c = '-'
    · rw [if_pos hc1] at h
      rw [if_pos hc1, floatLitBody_parseNatLit h]
      rfl
    · rw [if_neg hc1] at h
      rw [if_neg hc1]
      by_cases hc2 : c = '+'
      · rw [if_pos hc2] at h
        rw [if_pos hc2, floatLitBody_parseNatLit h]
        rfl
      · rw [if_neg hc2] at h
        rw [if_neg hc2, floatLitBody_parseNatLit h]
        rfl

/-- Characters that can occur in a float literal. -/
def floatLitChar (c : Char) : Bool :=
  c.isDigit || c == '.' || c == 'e' || c == 'E' || c == '+' || c == '-'

theorem floatLitExp_chars {l : List Char} (h : floatLitExp l = true) :
    ∀ c ∈ l, floatLitChar c = true := by
  intro c hc
  rcases l with _ | ⟨c0, r⟩
  · simp at hc
  · simp only [floatLitExp] at h
    by_cases hs : c0 = '+' ∨ c0 = '-'
    · rw [if_pos hs] at h
      simp only [Bool.and_eq_true, List.all_eq_true] at h
      rcases List.mem_cons.mp hc with rfl | hm
      · rcases hs with rfl | rfl <;> decide
      · simp [floatLitChar, h.2 c hm]
    · rw [if_neg hs] at h
      simp only [List.all_eq_true] at h
      simp [floatLitChar, h c hc]

theorem floatLitBody_chars {l : List Char} (h : floatLitBody l = true) :
    ∀ c ∈ l, floatLitChar c = true := by
  intro c hc
  unfold floatLitBody at h
  rw [← digitSpan_append_eq l] at hc
  rcases hsp : digitSpan l with ⟨d1, r1⟩
  rw [hsp] at h hc
  rcases List.mem_append.mp hc with hm | hm
  · have := digitSpan_fst_digits l c (by rw [hsp]; exact hm)
    simp [floatLitChar, this]
  · rcases r1 with _ | ⟨c0, r2⟩
    · simp at hm
    · simp only [] at h
      by_cases hdot : c0 = '.'
      · rw [if_pos hdot] at h
        rcases hsp2 : digitSpan r2 with ⟨d2, r3⟩
        rw [hsp2] at h
        simp only [Bool.and_eq_true] at h
        rcases List.mem_cons.mp hm with rfl | hm2
        · rw [hdot]; decide
        · rw [← digitSpan_append_eq r2, hsp2] at hm2
          rcases List.mem_append.mp hm2 with hm3 | hm3
          · have := digitSpan_fst_digits r2 c (by rw [hsp2]; exact hm3)
            simp [floatLitChar, this]
          · rcases h with ⟨_, hexp⟩
            rcases r3 with _ | ⟨c1, r4⟩
            · simp at hm3
            · unfold floatLitExpOpt at hexp
              simp only [Bool.and_eq_true, Bool.or_eq_true, beq_iff_eq] at hexp
              rcases List.mem_cons.mp hm3 with rfl | hm4
              · rcases hexp.1 with rfl | rfl <;> decide
              · exact floatLitExp_chars hexp.2 c hm4
      · rw [if_neg hdot] at h
        simp only [Bool.and_eq_true, Bool.or_eq_true, beq_iff_eq] at h
        rcases List.mem_cons.mp hm with rfl | hm2
        · rcases h.1.1 with rfl | rfl <;> decide
        · exact floatLitExp_chars h.2 c hm2

theorem isFloatLit_chars {l : List Char} (h : isFloatLit l = true) :
    ∀ c ∈ l, floatLitChar c = true := by
  intro c hc
  rcases l with _ | ⟨c0, r⟩
  · simp at hc
  · simp only [isFloatLit] at h
    by_cases hc1 : c0 = '-'
    · rw [if_pos hc1] at h
      rcases List.mem_cons.mp hc with rfl | hm
      · rw [hc1]; decide
      · exact floatLitBody_chars h c hm
    · rw [if_neg hc1] at h
      by_cases hc2 : c0 = '+'
      · rw [if_pos hc2] at h
        rcases List.mem_cons.mp hc with rfl | hm
        · rw [hc2]; decide
        · exact floatLitBody_chars h c hm
      · rw [if_neg hc2] at h
        exact floatLitBody_chars h c hc

/-! ## XML character filter (source lines 185-209) -/

/-- Model of is_valid_xml_char_ordinal (source lines 185-198). -/
def isValidXmlCharOrdinal (i : Nat) : Bool :=
  (0x20 ≤ i && i ≤ 0xD7FF)
    || (i == 0x9 || i == 0xA || i == 0xD)
    || (0xE000 ≤ i && i ≤ 0xFFFD)
    || (0x10000 ≤ i && i ≤ 0x10FFFF)

/-- Model of clean_xml_string (source lines 201-209): keep exactly the
characters whose ordinals are XML-legal. -/
def cleanXmlString (s : String) : String :=
  ⟨s.data.filter (fun c => isValidXmlCharOrdinal c.toNat)⟩

/-! ## Date and time values

Python datetime and date values are modelled as plain records; the range
invariants the datetime constructor enforces become the dtValid predicate,
which the constructor model mkDatetime checks. -/

/-- Model of a Python datetime value.  tzMinutes is the utcoffset of an
aware value in minutes, none for a naive value. -/
structure Dt where
  year : Nat
  month : Nat
  day : Nat
  hour : Nat
  minute : Nat
  second : Nat
  microsecond : Nat
  tzMinutes : Option Int
  deriving DecidableEq, Repr

/-- Model of a Python date value. -/
structure PyDate where
  year : Nat
  month : Nat
  day : Nat
  deriving DecidableEq, Repr

def isLeapYear (y : Nat) : Bool := (y % 4 == 0 && y % 100 != 0) || y % 400 == 0

def daysInMonth (y m : Nat) : Nat :=
  if m = 2 then (if isLeapYear y then 29 else 28)
  else if m = 4 ∨ m = 6 ∨ m = 9 ∨ m = 11 then 30
  else 31

/-- The field ranges the Python datetime constructor enforces; every Python
datetime value satisfies them. -/
def dtValid (d : Dt) : Prop :=
  1 ≤ d.year ∧ d.year ≤ 9999 ∧ 1 ≤ d.month ∧ d.month ≤ 12 ∧
    1 ≤ d.day ∧ d.day ≤ daysInMonth d.year d.month ∧
    d.hour ≤ 23 ∧ d.minute ≤ 59 ∧ d.second ≤ 59 ∧ d.microsecond ≤ 999999

instance (d : Dt) : Decidable (dtValid d) := by unfold dtValid; infer_instance

/-- Model of the datetime.datetime constructor: validates the field ranges
and builds a naive value. -/
def mkDatetime (y mo d h mi s : Nat) : Except PyErr Dt :=
  if 1 ≤ y ∧ y ≤ 9999 ∧ 1 ≤ mo ∧ mo ≤ 12 ∧ 1 ≤ d ∧ d ≤ daysInMonth y mo ∧
      h ≤ 23 ∧ mi ≤ 59 ∧ s ≤ 59 then
    .ok ⟨y, mo, d, h, mi, s, 0, Option.none⟩
  else .error (.valueError "field value out of range")

/-- Zero-padded two-digit print. -/
def pad2 (n : Nat) : List Char := [digitChar (n / 10 % 10), digitChar (n % 10)]

/-- Zero-padded four-digit print. -/
def pad4 (n : Nat) : List Char :=
  [digitChar (n / 1000 % 10), digitChar (n / 100 % 10), digitChar (n / 10 % 10),
   digitChar (n % 10)]

/-- Zero-padded six-digit print. -/
def pad6 (n : Nat) : List Char :=
  [digitChar (n / 100000 % 10), digitChar (n / 10000 % 10), digitChar (n / 1000 % 10),
   digitChar (n / 100 % 10), digitChar (n / 10 % 10), digitChar (n % 10)]

/-- Offset suffix of datetime.isoformat() for an aware value. -/
def tzSuffix : Option Int → List Char
  | Option.none => []
  | some o => (if o < 0 then '-' else '+') :: (pad2 (o.natAbs / 60) ++ ':' :: pad2 (o.natAbs % 60))

/-- Characters of datetime.isoformat(): date, the letter T, time, fractional
microseconds exactly when nonzero, and the offset for aware values. -/
def dtIsoChars (d : Dt) : List Char :=
  pad4 d.year ++ '-' :: pad2 d.month ++ '-' :: pad2 d.day ++ 'T' :: pad2 d.hour ++
    ':' :: pad2 d.minute ++ ':' :: pad2 d.second ++
    (if d.microsecond = 0 then [] else '.' :: pad6 d.microsecond) ++ tzSuffix d.tzMinutes

/-- Characters of date.isoformat(). -/
def dateIsoChars (d : PyDate) : List Char :=
  pad4 d.year ++ '-' :: pad2 d.month ++ '-' :: pad2 d.day

/-! ## Native values and the Value Codec (source lines 583-685) -/

/-- Model of the native Python values the codec handles. -/
inductive PyValue where
  | none
  | bool (b : Bool)
  | int (n : Int)
  | float (f : PyFloat)
  | str (s : String)
  | bytes (b : List Nat)
  | dt (d : Dt)
  | date (d : PyDate)
  | seq (l : List PyValue)

mutual

/-- Model of repr() restricted to the value kinds the codec can meet.  The
string, bytes and datetime cases are simplified renderings (quoting without
escape handling); no verified claim reaches them. -/
def pyRepr : PyValue → String
  | .none => "None"
  | .bool true => "True"
  | .bool false => "False"
  | .int n => pyIntStr n
  | .float f => pyFloatStr f
  | .str s => "\x27" ++ s ++ "\x27"
  | .bytes b => "b\x27" ++ forceUnicodeBytes b ++ "\x27"
  | .dt _ => "datetime.datetime(...)"
  | .date _ => "datetime.date(...)"
  | .seq l => "[" ++ pyReprList l ++ "]"

/-- Comma-separated reprs of the elements of a list. -/
def pyReprList : List PyValue → String
  | [] => ""
  | [v] => pyRepr v
  | v :: r => pyRepr v ++ ", " ++ pyReprList r

end

/-- Model of str(): identity on strings, repr on the other kinds. -/
def pyStrOf : PyValue → String
  | .str s => s
  | v => pyRepr v

/-- Model of Solr._from_python (source lines 583-610): datetimes print as
isoformat plus Z, dates get a synthetic midnight, booleans print as the
lowercase literals, bytes are decoded and everything else is printed with
str(); the result passes through clean_xml_string. -/
def fromPython : PyValue → String
  | .dt d => cleanXmlString ⟨dtIsoChars d ++ ['Z']⟩
  | .date d => cleanXmlString ⟨dateIsoChars d ++ ('T' :: "00:00:00Z".data)⟩
  | .bool true => cleanXmlString "true"
  | .bool false => cleanXmlString "false"
  | .bytes b => cleanXmlString (forceUnicodeBytes b)
  | v => cleanXmlString (pyStrOf v)

/-- Model of ast.literal_eval restricted to the literal forms this codec can
produce on the wire: the names None, True and False, integer literals and
float literals.  Other literal shapes (quoted strings, collections, complex
numbers) are modelled as failures; no verified claim exercises them. -/
def literalEval (s : String) : Option PyValue :=
  if s = "None" then some PyValue.none
  else if s = "True" then some (.bool true)
  else if s = "False" then some (.bool false)
  else
    match parseIntLit s.data with
    | some n => some (.int n)
    | Option.none => if isFloatLit s.data then some (.float (.finite s)) else Option.none

/-- Numeric value of two digit characters. -/
def val2 (a b : Char) : Nat := (a.toNat - 48) * 10 + (b.toNat - 48)

/-- Numeric value of four digit characters. -/
def val4 (a b c d : Char) : Nat :=
  ((a.toNat - 48) * 10 + (b.toNat - 48)) * 100 + (c.toNat - 48) * 10 + (d.toNat - 48)

/-- Tail of the DATETIME_REGEX pattern after the seconds: either the final Z,
or a dot, a nonempty digit run, and the final Z. -/
def fracZTail (l : List Char) : Bool :=
  match l with
  | [] => false
  | c :: rest =>
    if c = 'Z' then rest.isEmpty
    else if c = '.' then
      match digitSpan rest with
      | (ds, r) => !(ds.isEmpty) && r == ['Z']
    else false

/-- Model of DATETIME_REGEX.search (source line 66).  The pattern is
anchored at both ends, so search is a full match; the captured fields are
returned and the fractional second digits are matched but discarded. -/
def datetimeMatch (l : List Char) : Option (Nat × Nat × Nat × Nat × Nat × Nat) :=
  match l with
  | y1 :: y2 :: y3 :: y4 :: sep1 :: m1 :: m2 :: sep2 :: dd1 :: dd2 :: sept :: h1 :: h2 ::
      sep3 :: mi1 :: mi2 :: sep4 :: s1 :: s2 :: rest =>
    if sep1 = '-' ∧ sep2 = '-' ∧ sept = 'T' ∧ sep3 = ':' ∧ sep4 = ':' ∧
        ([y1, y2, y3, y4, m1, m2, dd1, dd2, h1, h2, mi1, mi2, s1, s2].all
          (fun c => c.isDigit)) = true ∧
        fracZTail rest = true then
      some (val4 y1 y2 y3 y4, val2 m1 m2, val2 dd1 dd2, val2 h1 h2, val2 mi1 mi2, val2 s1 s2)
    else Option.none
  | _ => Option.none

/-- String pipeline of _to_python (source lines 643-662): the datetime regex
with the validating constructor, then the literal-evaluation fallback, then
the string itself. -/
def strDecode (s : String) : Except PyErr PyValue :=
  match datetimeMatch s.data with
  | some (y, mo, d, h, mi, sec) => (mkDatetime y mo d h mi sec).map PyValue.dt
  | Option.none =>
    match literalEval s with
    | some r => .ok r
    | Option.none => .ok (.str s)

/-- Model of Solr._to_python (source lines 613-662).  The isinstance test
for int, float and complex also catches bool (bool is an int subclass), so
those inputs return unchanged.  A list or tuple collapses to its first
element, an empty one raises IndexError.  Only a str can equal the string
literals true and false; bytes decode afterwards with errors replace.  The
literal-evaluation fallback catches ValueError and SyntaxError and returns
the value unchanged. -/
def toPython (v : PyValue) : Except PyErr PyValue :=
  match v with
  | .int n => .ok (.int n)
  | .float f => .ok (.float f)
  | .bool b => .ok (.bool b)
  | v0 =>
    match (match v0 with
           | .seq [] => Except.error PyErr.indexError
           | .seq (x :: _) => Except.ok x
           | _ => Except.ok v0) with
    | .error e => .error e
    | .ok v1 =>
      match v1 with
      | .str s =>
        if s = "true" then .ok (.bool true)
        else if s = "false" then .ok (.bool false)
        else strDecode s
      | .bytes b => strDecode (forceUnicodeBytes b)
      | other => .ok other

/-- Truncation that the decode side applies to a round-tripped datetime:
microseconds drop and the value is naive. -/
def dtTruncate (d : Dt) : Dt :=
  ⟨d.year, d.month, d.day, d.hour, d.minute, d.second, 0, Option.none⟩

/-- The date-time text shape the specification claims for encode: second
precision, no fractional seconds, trailing Z. -/
def claimedDtFormat (d : Dt) : String :=
  ⟨pad4 d.year ++ '-' :: pad2 d.month ++ '-' :: pad2 d.day ++ 'T' :: pad2 d.hour ++
    ':' :: pad2 d.minute ++ ':' :: pad2 d.second ++ ['Z']⟩

/-- The same shape with the fractional microsecond digits that isoformat
emits for a nonzero microsecond field. -/
def microDtFormat (d : Dt) : String :=
  ⟨pad4 d.year ++ '-' :: pad2 d.month ++ '-' :: pad2 d.day ++ 'T' :: pad2 d.hour ++
    ':' :: pad2 d.minute ++ ':' :: pad2 d.second ++ '.' :: pad6 d.microsecond ++ ['Z']⟩

/-- The date-only text shape the specification claims: synthetic midnight. -/
def claimedDateFormat (d : PyDate) : String :=
  ⟨pad4 d.year ++ '-' :: pad2 d.month ++ '-' :: pad2 d.day ++ ('T' :: "00:00:00Z".data)⟩

/-- Concrete naive datetime used by witnesses. -/
def dtSample : Dt := ⟨2014, 5, 27, 10, 31, 45, 0, Option.none⟩

/-- Concrete naive datetime with a nonzero microsecond field. -/
def dtMicroSample : Dt := ⟨2020, 1, 2, 3, 4, 5, 6, Option.none⟩

/-! ### Facts about the codec -/

theorem isDigit_toNat_bounds {c : Char} (h : c.isDigit = true) :
    48 ≤ c.toNat ∧ c.toNat ≤ 57 := by
  simp only [Char.isDigit, Bool.and_eq_true, decide_eq_true_eq, ge_iff_le] at h
  obtain ⟨h1, h2⟩ := h
  rw [UInt32.le_def, BitVec.le_def] at h1 h2
  exact ⟨h1, h2⟩

theorem isDigit_validXml {c : Char} (h : c.isDigit = true) :
    isValidXmlCharOrdinal c.toNat = true := by
  obtain ⟨h1, h2⟩ := isDigit_toNat_bounds h
  simp only [isValidXmlCharOrdinal, Bool.or_eq_true, Bool.and_eq_true, decide_eq_true_eq,
    beq_iff_eq]
  omega

theorem digitChar_mod_isDigit (m : Nat) : (digitChar (m % 10)).isDigit = true :=
  digitChar_isDigit (Nat.mod_lt m (by decide))

theorem cleanXmlString_id {s : String}
    (h : ∀ c ∈ s.data, isValidXmlCharOrdinal c.toNat = true) : cleanXmlString s = s := by
  unfold cleanXmlString
  rw [List.filter_eq_self.mpr h]

theorem pad2_forall {P : Char → Prop} (hd : ∀ x : Nat, P (digitChar (x % 10))) (n : Nat) :
    ∀ c ∈ pad2 n, P c := by
  intro c hc
  simp only [pad2, List.mem_cons, List.not_mem_nil, or_false] at hc
  rcases hc with rfl | rfl <;> exact hd _

theorem pad4_forall {P : Char → Prop} (hd : ∀ x : Nat, P (digitChar (x % 10))) (n : Nat) :
    ∀ c ∈ pad4 n, P c := by
  intro c hc
  simp only [pad4, List.mem_cons, List.not_mem_nil, or_false] at hc
  rcases hc with rfl | rfl | rfl | rfl <;> exact hd _

theorem pad6_forall {P : Char → Prop} (hd : ∀ x : Nat, P (digitChar (x % 10))) (n : Nat) :
    ∀ c ∈ pad6 n, P c := by
  intro c hc
  simp only [pad6, List.mem_cons, List.not_mem_nil, or_false] at hc
  rcases hc with rfl | rfl | rfl | rfl | rfl | rfl <;> exact hd _

theorem daysInMonth_le (y m : Nat) : daysInMonth y m ≤ 31 := by
  unfold daysInMonth
  split
  · split <;> omega
  · split <;> omega

theorem dtIsoChars_forall {P : Char → Prop} (hd : ∀ x : Nat, P (digitChar (x % 10)))
    (hs1 : P '-') (hs2 : P ':') (hs3 : P 'T') (hs4 : P '.')
    (d : Dt) (htz : d.tzMinutes = Option.none) : ∀ c ∈ dtIsoChars d, P c := by
  unfold dtIsoChars
  rw [htz]
  simp only [tzSuffix, List.append_nil, List.append_assoc, List.cons_append]
  refine List.forall_mem_append.mpr ⟨pad4_forall hd _, ?_⟩
  refine List.forall_mem_cons.mpr ⟨hs1, ?_⟩
  refine List.forall_mem_append.mpr ⟨pad2_forall hd _, ?_⟩
  refine List.forall_mem_cons.mpr ⟨hs1, ?_⟩
  refine List.forall_mem_append.mpr ⟨pad2_forall hd _, ?_⟩
  refine List.forall_mem_cons.mpr ⟨hs3, ?_⟩
  refine List.forall_mem_append.mpr ⟨pad2_forall hd _, ?_⟩
  refine List.forall_mem_cons.mpr ⟨hs2, ?_⟩
  refine List.forall_mem_append.mpr ⟨pad2_forall hd _, ?_⟩
  refine List.forall_mem_cons.mpr ⟨hs2, ?_⟩
  refine List.forall_mem_append.mpr ⟨pad2_forall hd _, ?_⟩
  by_cases hus : d.microsecond = 0
  · simp [hus]
  · rw [if_neg hus]
    refine List.forall_mem_cons.mpr ⟨hs4, pad6_forall hd _⟩

theorem dateIsoChars_forall {P : Char → Prop} (hd : ∀ x : Nat, P (digitChar (x % 10)))
    (hs1 : P '-') (d : PyDate) : ∀ c ∈ dateIsoChars d, P c := by
  unfold dateIsoChars
  simp only [List.append_assoc, List.cons_append]
  refine List.forall_mem_append.mpr ⟨pad4_forall hd _, ?_⟩
  refine List.forall_mem_cons.mpr ⟨hs1, ?_⟩
  refine List.forall_mem_append.mpr ⟨pad2_forall hd _, ?_⟩
  exact List.forall_mem_cons.mpr ⟨hs1, pad2_forall hd _⟩

theorem val2_pad2 {n : Nat} (h : n ≤ 99) :
    val2 (digitChar (n / 10 % 10)) (digitChar (n % 10)) = n := by
  rw [val2, digitChar_toNat (Nat.mod_lt _ (by decide)), digitChar_toNat (Nat.mod_lt _ (by decide))]
  omega

theorem val4_pad4 {n : Nat} (h : n ≤ 9999) :
    val4 (digitChar (n / 1000 % 10)) (digitChar (n / 100 % 10)) (digitChar (n / 10 % 10))
      (digitChar (n % 10)) = n := by
  rw [val4, digitChar_toNat (Nat.mod_lt _ (by decide)), digitChar_toNat (Nat.mod_lt _ (by decide)),
    digitChar_toNat (Nat.mod_lt _ (by decide)), digitChar_toNat (Nat.mod_lt _ (by decide))]
  omega

theorem datetimeMatch_T {l : List Char} {x : Nat × Nat × Nat × Nat × Nat × Nat}
    (h : datetimeMatch l = some x) : 'T' ∈ l := by
  unfold datetimeMatch at h
  split at h
  · split at h
    · rename_i hcond
      obtain ⟨_, _, hT, _⟩ := hcond
      subst hT
      simp
    · exact absurd h (by simp)
  · exact absurd h (by simp)

theorem datetimeMatch_none_of_no_T {l : List Char} (h : ¬('T' ∈ l)) :
    datetimeMatch l = Option.none := by
  rcases hm : datetimeMatch l with _ | x
  · rfl
  · exact absurd (datetimeMatch_T hm) h

theorem datetimeMatch_dtIso (d : Dt) (hv : dtValid d) (htz : d.tzMinutes = Option.none) :
    datetimeMatch (dtIsoChars d ++ ['Z']) =
      some (d.year, d.month, d.day, d.hour, d.minute, d.second) := by
  obtain ⟨hy1, hy2, hm1, hm2, hd1, hd2, hh, hmi, hs, hus⟩ := hv
  unfold dtIsoChars
  rw [htz]
  simp only [tzSuffix, List.append_nil, pad4, pad2, List.cons_append, List.nil_append,
    List.append_assoc]
  simp only [datetimeMatch]
  have hday : d.day ≤ 99 := by
    have := daysInMonth_le d.year d.month
    omega
  rw [if_pos]
  · rw [val4_pad4 hy2, val2_pad2 (by omega), val2_pad2 hday, val2_pad2 (by omega),
      val2_pad2 (by omega), val2_pad2 (by omega)]
  · refine ⟨trivial, trivial, trivial, trivial, trivial, by simp [digitChar_mod_isDigit], ?_⟩
    by_cases h0 : d.microsecond = 0
    · rw [if_pos h0]
      rfl
    · rw [if_neg h0]
      simp only [List.cons_append, fracZTail, reduceIte]
      rw [digitSpan_digits_append (by simp [pad6, digitChar_mod_isDigit]) (by rfl)]
      simp [pad6]

theorem toPython_str {s : String} (h1 : ¬(s = "true")) (h2 : ¬(s = "false")) :
    toPython (.str s) = strDecode s := by
  simp only [toPython]
  rw [if_neg h1, if_neg h2]

theorem string_ne_of_mem {t : String} {c : Char} (hc : c ∈ t.data) {s : String}
    (hn : ¬(c ∈ s.data)) : ¬(s = t) := fun h => hn (by rw [h]; exact hc)

theorem intStr_not_mem {c : Char} (n : Int) (h1 : ¬(c = '-')) (h2 : ¬(c.isDigit = true)) :
    ¬(c ∈ (pyIntStr n).data) := by
  intro hm
  rcases intStrChars_mem n c hm with h | h
  · exact h1 h
  · exact h2 h

theorem natStrChars_mem_digitChar (n : Nat) :
    ∀ c ∈ natStrChars n, ∃ d, d < 10 ∧ c = digitChar d := by
  intro c hc
  unfold natStrChars at hc
  simp only [List.mem_map, List.mem_reverse] at hc
  obtain ⟨d, hdm, rfl⟩ := hc
  exact ⟨d, natDigitsGo_lt_ten (Nat.le_refl n) d hdm, rfl⟩

theorem intStrChars_validXml (n : Int) :
    ∀ c ∈ intStrChars n, isValidXmlCharOrdinal c.toNat = true := by
  intro c hc
  unfold intStrChars at hc
  split at hc
  · rcases List.mem_cons.mp hc with rfl | hm
    · decide
    · obtain ⟨d, hd, rfl⟩ := natStrChars_mem_digitChar _ c hm
      exact isDigit_validXml (digitChar_isDigit hd)
  · obtain ⟨d, hd, rfl⟩ := natStrChars_mem_digitChar _ c hc
    exact isDigit_validXml (digitChar_isDigit hd)

theorem literalEval_intStr (n : Int) : literalEval (pyIntStr n) = some (.int n) := by
  unfold literalEval
  rw [if_neg (string_ne_of_mem (t := "None") (c := 'N') (by decide)
        (intStr_not_mem n (by decide) (by decide))),
    if_neg (string_ne_of_mem (t := "True") (c := 'T') (by decide)
        (intStr_not_mem n (by decide) (by decide))),
    if_neg (string_ne_of_mem (t := "False") (c := 'F') (by decide)
        (intStr_not_mem n (by decide) (by decide)))]
  rw [show (pyIntStr n).data = intStrChars n from rfl, parseIntLit_intStrChars]

theorem floatLit_not_mem {r : String} (h : isFloatLit r.data = true) {c : Char}
    (hc : floatLitChar c = false) : ¬(c ∈ r.data) := by
  intro hm
  rw [isFloatLit_chars h c hm] at hc
  cases hc

theorem floatLit_validXml {r : String} (h : isFloatLit r.data = true) :
    ∀ c ∈ r.data, isValidXmlCharOrdinal c.toNat = true := by
  intro c hc
  have := isFloatLit_chars h c hc
  simp only [floatLitChar, Bool.or_eq_true, beq_iff_eq] at this
  rcases this with ((((hd | rfl) | rfl) | rfl) | rfl) | rfl
  · exact isDigit_validXml hd
  all_goals decide

theorem literalEval_floatLit {r : String} (h : isFloatLit r.data = true) :
    literalEval r = some (.float (.finite r)) := by
  unfold literalEval
  rw [if_neg (string_ne_of_mem (t := "None") (c := 'N') (by decide)
        (floatLit_not_mem h (by decide))),
    if_neg (string_ne_of_mem (t := "True") (c := 'T') (by decide)
        (floatLit_not_mem h (by decide))),
    if_neg (string_ne_of_mem (t := "False") (c := 'F') (by decide)
        (floatLit_not_mem h (by decide))),
    isFloatLit_parseIntLit h]
  simp only [if_pos h]

theorem toPython_fromPython_int (n : Int) :
    toPython (.str (fromPython (.int n))) = .ok (.int n) := by
  have hf : fromPython (.int n) = pyIntStr n := by
    show cleanXmlString (pyStrOf (.int n)) = pyIntStr n
    exact cleanXmlString_id (intStrChars_validXml n)
  rw [hf, toPython_str
      (string_ne_of_mem (t := "true") (c := 't') (by decide)
        (intStr_not_mem n (by decide) (by decide)))
      (string_ne_of_mem (t := "false") (c := 'f') (by decide)
        (intStr_not_mem n (by decide) (by decide)))]
  unfold strDecode
  rw [datetimeMatch_none_of_no_T (intStr_not_mem n (by decide) (by decide)),
    literalEval_intStr]

theorem toPython_fromPython_float {r : String} (h : isFloatLit r.data = true) :
    toPython (.str (fromPython (.float (.finite r)))) = .ok (.float (.finite r)) := by
  have hf : fromPython (.float (.finite r)) = r := by
    show cleanXmlString (pyStrOf (.float (.finite r))) = r
    exact cleanXmlString_id (floatLit_validXml h)
  rw [hf, toPython_str
      (string_ne_of_mem (t := "true") (c := 't') (by decide) (floatLit_not_mem h (by decide)))
      (string_ne_of_mem (t := "false") (c := 'f') (by decide) (floatLit_not_mem h (by decide)))]
  unfold strDecode
  rw [datetimeMatch_none_of_no_T (floatLit_not_mem h (by decide)), literalEval_floatLit h]

theorem dtIso_not_mem {d : Dt} (htz : d.tzMinutes = Option.none) {c : Char}
    (h1 : ¬(c.isDigit = true)) (h2 : ¬(c = '-')) (h3 : ¬(c = ':')) (h4 : ¬(c = 'T'))
    (h5 : ¬(c = '.')) (h6 : ¬(c = 'Z')) : ¬(c ∈ dtIsoChars d ++ ['Z']) := by
  intro hm
  rcases List.mem_append.mp hm with hm | hm
  · rcases dtIsoChars_forall
      (P := fun c => c.isDigit = true ∨ c = '-' ∨ c = ':' ∨ c = 'T' ∨ c = '.')
      (fun x => Or.inl (digitChar_mod_isDigit x))
      (Or.inr (Or.inl rfl)) (Or.inr (Or.inr (Or.inl rfl)))
      (Or.inr (Or.inr (Or.inr (Or.inl rfl)))) (Or.inr (Or.inr (Or.inr (Or.inr rfl))))
      d htz c hm with h | h | h | h | h
    · exact h1 h
    · exact h2 h
    · exact h3 h
    · exact h4 h
    · exact h5 h
  · simp only [List.mem_cons, List.not_mem_nil, or_false] at hm
    exact h6 hm

theorem toPython_fromPython_dt (d : Dt) (hv : dtValid d) (htz : d.tzMinutes = Option.none) :
    toPython (.str (fromPython (.dt d))) = .ok (.dt (dtTruncate d)) := by
  have hf : fromPython (.dt d) = ⟨dtIsoChars d ++ ['Z']⟩ := by
    show cleanXmlString ⟨dtIsoChars d ++ ['Z']⟩ = _
    refine cleanXmlString_id ?_
    refine List.forall_mem_append.mpr ⟨?_, ?_⟩
    · exact dtIsoChars_forall (fun x => isDigit_validXml (digitChar_mod_isDigit x))
        (by decide) (by decide) (by decide) (by decide) d htz
    · intro c hc
      simp only [List.mem_cons, List.not_mem_nil, or_false] at hc
      subst hc
      decide
  rw [hf, toPython_str
      (string_ne_of_mem (t := "true") (c := 'u') (by decide)
        (dtIso_not_mem htz (by decide) (by decide) (by decide) (by decide) (by decide) (by decide)))
      (string_ne_of_mem (t := "false") (c := 'a') (by decide)
        (dtIso_not_mem htz (by decide) (by decide) (by decide) (by decide) (by decide) (by decide)))]
  unfold strDecode
  rw [show (String.mk (dtIsoChars d ++ ['Z'])).data = dtIsoChars d ++ ['Z'] from rfl,
    datetimeMatch_dtIso d hv htz]
  show Except.map PyValue.dt (mkDatetime d.year d.month d.day d.hour d.minute d.second) =
    Except.ok (PyValue.dt (dtTruncate d))
  unfold mkDatetime
  obtain ⟨hy1, hy2, hm1, hm2, hd1, hd2, hh, hmi, hsec, hus⟩ := hv
  rw [if_pos ⟨hy1, hy2, hm1, hm2, hd1, hd2, hh, hmi, hsec⟩]
  rfl

/-! ### C3 and C4 -/

/-- C3 amended: decode after encode reproduces booleans and integers always,
finite floats (values whose repr is a float literal) always, and naive
date-time values up to second truncation.  The restriction to finite floats
and naive date-times is forced: the values inf, -inf, nan print as names
that the literal-evaluation fallback rejects, and an aware datetime prints
an offset that the strict regex rejects, so both come back as strings. -/
theorem c3_roundtrip_amended :
    (∀ b : Bool, toPython (.str (fromPython (.bool b))) = .ok (.bool b)) ∧
    (∀ n : Int, toPython (.str (fromPython (.int n))) = .ok (.int n)) ∧
    (∀ r : String, isFloatLit r.data = true →
      toPython (.str (fromPython (.float (.finite r)))) = .ok (.float (.finite r))) ∧
    (∀ d : Dt, dtValid d → d.tzMinutes = Option.none →
      toPython (.str (fromPython (.dt d))) = .ok (.dt (dtTruncate d))) := by
  refine ⟨?_, toPython_fromPython_int, fun r h => toPython_fromPython_float h,
    toPython_fromPython_dt⟩
  intro b
  cases b <;> rfl

/-- C3 counterexample: the float value inf encodes to the text inf, which
decode returns as a plain string, not as the float, so the claimed
round trip fails for the float inf. -/
theorem c3_roundtrip_counterexample :
    fromPython (.float PyFloat.inf) = "inf" ∧
    toPython (.str (fromPython (.float PyFloat.inf))) = .ok (.str "inf") ∧
    ¬((Except.ok (PyValue.str "inf") : Except PyErr PyValue) = .ok (.float PyFloat.inf)) := by
  refine ⟨rfl, rfl, by simp⟩

/-- Witness for C3 at concrete inputs: the literal 1.5 and a concrete naive
datetime round-trip as the amended claim states. -/
theorem c3_roundtrip_witness :
    isFloatLit ("1.5").data = true ∧
    toPython (.str (fromPython (.float (.finite "1.5")))) = .ok (.float (.finite "1.5")) ∧
    dtValid dtSample ∧
    toPython (.str (fromPython (.dt dtSample))) = .ok (.dt (dtTruncate dtSample)) :=
  ⟨by decide, c3_roundtrip_amended.2.2.1 "1.5" (by decide), by decide,
    c3_roundtrip_amended.2.2.2 dtSample (by decide) rfl⟩

/-- C4 amended: encode prints a naive datetime with zero microseconds as
exactly YYYY-MM-DDThh:mm:ssZ and a date as YYYY-MM-DDT00:00:00Z, but a
nonzero microsecond field is printed as fractional digits before the Z,
contrary to the unconditional second-precision claim. -/
theorem c4_datetime_format_amended :
    (∀ d : Dt, d.tzMinutes = Option.none →
      (d.microsecond = 0 → fromPython (.dt d) = claimedDtFormat d) ∧
      (¬(d.microsecond = 0) → fromPython (.dt d) = microDtFormat d)) ∧
    (∀ dd : PyDate, fromPython (.date dd) = claimedDateFormat dd) := by
  constructor
  · intro d htz
    have hf : fromPython (.dt d) = ⟨dtIsoChars d ++ ['Z']⟩ := by
      show cleanXmlString ⟨dtIsoChars d ++ ['Z']⟩ = _
      refine cleanXmlString_id ?_
      refine List.forall_mem_append.mpr ⟨?_, ?_⟩
      · exact dtIsoChars_forall (fun x => isDigit_validXml (digitChar_mod_isDigit x))
          (by decide) (by decide) (by decide) (by decide) d htz
      · intro c hc
        simp only [List.mem_cons, List.not_mem_nil, or_false] at hc
        subst hc
        decide
    constructor
    · intro hus
      rw [hf]
      unfold claimedDtFormat dtIsoChars
      rw [htz, if_pos hus]
      simp [tzSuffix]
    · intro hus
      rw [hf]
      unfold microDtFormat dtIsoChars
      rw [htz, if_neg hus]
      simp [tzSuffix]
  · intro dd
    have hf : fromPython (.date dd) = ⟨dateIsoChars dd ++ ('T' :: "00:00:00Z".data)⟩ := by
      show cleanXmlString ⟨dateIsoChars dd ++ ('T' :: "00:00:00Z".data)⟩ = _
      refine cleanXmlString_id ?_
      refine List.forall_mem_append.mpr ⟨?_, ?_⟩
      · exact dateIsoChars_forall (fun x => isDigit_validXml (digitChar_mod_isDigit x))
          (by decide) dd
      · intro c hc
        simp only [List.mem_cons, List.not_mem_nil, or_false] at hc
        rcases hc with rfl | rfl | rfl | rfl | rfl | rfl | rfl | rfl | rfl | rfl <;> decide
    rw [hf]
    rfl

/-- C4 counterexample: a datetime with microsecond 6 encodes with fractional
digits, so the encoded text is not the claimed second-precision shape. -/
theorem c4_datetime_format_counterexample :
    fromPython (.dt dtMicroSample) = "2020-01-02T03:04:05.000006Z" ∧
    claimedDtFormat dtMicroSample = "2020-01-02T03:04:05Z" ∧
    ¬(fromPython (.dt dtMicroSample) = claimedDtFormat dtMicroSample) := by
  refine ⟨by decide, by decide, by decide⟩

/-- Witness for C4 at concrete inputs. -/
theorem c4_datetime_format_witness :
    fromPython (.dt dtSample) = claimedDtFormat dtSample ∧
    fromPython (.dt dtMicroSample) = microDtFormat dtMicroSample ∧
    fromPython (.date ⟨2014, 5, 27⟩) = claimedDateFormat ⟨2014, 5, 27⟩ :=
  ⟨(c4_datetime_format_amended.1 dtSample rfl).1 rfl,
    (c4_datetime_format_amended.1 dtMicroSample rfl).2 (by decide),
    c4_datetime_format_amended.2 ⟨2014, 5, 27⟩⟩

/-! ## Document Builder (source lines 665-685 and 799-830) -/

/-- Model of Solr._is_null_value (source lines 665-685): None is null, a
zero-length str is null, everything else is not. -/
def isNullValue : PyValue → Bool
  | .none => true
  | .str s => s.length == 0
  | _ => false

/-- One emitted field element: its attributes and its encoded text. -/
structure FieldElem where
  name : String
  update : Option String
  boostAttr : Option String
  text : String
  deriving DecidableEq, Repr

/-- Element construction for one value of one field (source lines 817-826):
the name attribute, the update attribute when fieldUpdates is truthy and
names the key, the boost attribute when boost is truthy and names the key,
and the text from _from_python.  A Python None or empty mapping argument is
modelled as the empty list, matching their shared falsiness. -/
def mkFieldElem (boost : List (String × PyValue)) (fieldUpdates : List (String × String))
    (key : String) (bit : PyValue) : FieldElem :=
  { name := key
    update := if fieldUpdates.isEmpty then Option.none else fieldUpdates.lookup key
    boostAttr := if boost.isEmpty then Option.none else (boost.lookup key).map pyStrOf
    text := fromPython bit }

/-- Values iterated for one field (source lines 808-811): a list or tuple is
used as given, any other value becomes a one-element tuple. -/
def fieldValues : PyValue → List PyValue
  | .seq l => l
  | v => [v]

/-- The loop over the values of one field (source lines 813-828): a null
value is skipped silently, every other value emits one element, in order. -/
def fieldLoop (boost : List (String × PyValue)) (fieldUpdates : List (String × String))
    (key : String) : List PyValue → List FieldElem
  | [] => []
  | bit :: rest =>
    if isNullValue bit then fieldLoop boost fieldUpdates key rest
    else mkFieldElem boost fieldUpdates key bit :: fieldLoop boost fieldUpdates key rest

/-- The produced doc element: the optional boost attribute and the emitted
field elements in order. -/
structure DocElem where
  boostAttr : Option String
  fields : List FieldElem
  deriving DecidableEq, Repr

/-- Model of Solr._build_doc (source lines 799-830): iterate the field
entries in order; an entry named boost sets the doc-level boost attribute,
every other entry appends its field elements. -/
def buildDoc (doc : List (String × PyValue)) (boost : List (String × PyValue))
    (fieldUpdates : List (String × String)) : DocElem :=
  doc.foldl (fun acc kv =>
    if kv.1 = "boost" then { acc with boostAttr := some (pyStrOf kv.2) }
    else { acc with fields := acc.fields ++ fieldLoop boost fieldUpdates kv.1 (fieldValues kv.2) })
    { boostAttr := Option.none, fields := [] }

theorem fieldLoop_eq_filter_map (boost : List (String × PyValue))
    (fieldUpdates : List (String × String)) (key : String) (vs : List PyValue) :
    fieldLoop boost fieldUpdates key vs =
      (vs.filter (fun v => !(isNullValue v))).map (mkFieldElem boost fieldUpdates key) := by
  induction vs with
  | nil => rfl
  | cons v r ih =>
    rcases h : isNullValue v with _ | _ <;>
      simp [fieldLoop, List.filter_cons, h, ih]

theorem filter_not_null_length (vs : List PyValue) :
    (vs.filter (fun v => !(isNullValue v))).length =
      vs.length - (vs.filter (fun v => isNullValue v)).length := by
  induction vs with
  | nil => rfl
  | cons v r ih =>
    have hle := List.length_filter_le (fun v => isNullValue v) r
    rcases h : isNullValue v with _ | _ <;> simp [List.filter_cons, h, ih] <;> omega

/-! ### C7 and C10 -/

/-- C7: a field mapped to a sequence of values emits one element per value
in the given order, except that null and empty-string values are silently
omitted, so the element count is the value count minus the null count. -/
theorem c7_multivalue_expansion (key : String) (vs : List PyValue)
    (boost : List (String × PyValue)) (fieldUpdates : List (String × String))
    (hk : ¬(key = "boost")) :
    buildDoc [(key, .seq vs)] boost fieldUpdates =
      ⟨Option.none, (vs.filter (fun v => !(isNullValue v))).map
        (mkFieldElem boost fieldUpdates key)⟩ ∧
    (buildDoc [(key, .seq vs)] boost fieldUpdates).fields.length =
      vs.length - (vs.filter (fun v => isNullValue v)).length := by
  have hb : buildDoc [(key, .seq vs)] boost fieldUpdates =
      ⟨Option.none, fieldLoop boost fieldUpdates key vs⟩ := by
    simp [buildDoc, hk, fieldValues]
  refine ⟨?_, ?_⟩
  · rw [hb, fieldLoop_eq_filter_map]
  · rw [hb, fieldLoop_eq_filter_map]
    simp only [List.length_map]
    exact filter_not_null_length vs

/-- Witness for C7 at a concrete input: three given values, of which one is
None and one is the empty string, produce exactly one element. -/
theorem c7_multivalue_expansion_witness :
    buildDoc [("tag", .seq [.str "a", .none, .str ""])] [] [] =
      ⟨Option.none, [mkFieldElem [] [] "tag" (.str "a")]⟩ ∧
    (buildDoc [("tag", .seq [.str "a", .none, .str ""])] [] []).fields.length = 3 - 2 := by
  have h := c7_multivalue_expansion "tag" [.str "a", .none, .str ""] [] [] (by decide)
  exact ⟨by rw [h.1]; rfl, by rw [h.2]; rfl⟩

/-- C10: only None and the zero-length string are null; boolean False and
the number 0 are not null and encode to the texts false and 0; the null
check runs on the raw value before encoding, so a non-null value whose
encoded text is empty after the XML character filter still emits one
element. -/
theorem c10_null_check_on_raw_value :
    isNullValue (.bool false) = false ∧
    isNullValue (.int 0) = false ∧
    fromPython (.bool false) = "false" ∧
    fromPython (.int 0) = "0" ∧
    isNullValue (.str "\x01") = false ∧
    fromPython (.str "\x01") = "" ∧
    (∀ (v : PyValue) (key : String) (boost : List (String × PyValue))
      (fieldUpdates : List (String × String)), isNullValue v = false →
      fieldValues v = [v] → ¬(key = "boost") →
      buildDoc [(key, v)] boost fieldUpdates =
        ⟨Option.none, [mkFieldElem boost fieldUpdates key v]⟩) := by
  refine ⟨rfl, rfl, rfl, rfl, rfl, rfl, ?_⟩
  intro v key boost fieldUpdates hnull hvals hk
  simp [buildDoc, hk, hvals, fieldLoop, hnull]

/-- Witness for C10 at concrete inputs: the one-control-character string is
not null, emits one element, and its encoded text is empty. -/
theorem c10_null_check_on_raw_value_witness :
    buildDoc [("f", .str "\x01")] [] [] =
      ⟨Option.none, [mkFieldElem [] [] "f" (.str "\x01")]⟩ ∧
    (mkFieldElem [] [] "f" (.str "\x01")).text = "" ∧
    buildDoc [("g", .bool false)] [] [] =
      ⟨Option.none, [mkFieldElem [] [] "g" (.bool false)]⟩ := by
  refine ⟨c10_null_check_on_raw_value.2.2.2.2.2.2 (.str "\x01") "f" [] [] (by decide) rfl
      (by decide), by decide,
    c10_null_check_on_raw_value.2.2.2.2.2.2 (.bool false) "g" [] [] (by decide) rfl (by decide)⟩

/-! ## URL encoding and the select path (source lines 159-182 and 425-441) -/

/-- Hex digit character, uppercase, as the urllib quote escapes print. -/
def hexDigitChar (d : Nat) : Char := if d < 10 then digitChar d else Char.ofNat (55 + d)

/-- Percent escape of one byte. -/
def percentByte (b : Nat) : List Char := ['%', hexDigitChar (b / 16), hexDigitChar (b % 16)]

/-- Percent escapes of a byte list. -/
def percentBytes : List Nat → List Char
  | [] => []
  | b :: r => percentByte b ++ percentBytes r

/-- The characters quote_plus never escapes: ASCII letters and digits,
underscore, dot, hyphen and tilde. -/
def alwaysSafeChar (c : Char) : Bool :=
  ('A' ≤ c && c ≤ 'Z') || ('a' ≤ c && c ≤ 'z') || c.isDigit
    || c == '_' || c == '.' || c == '-' || c == '~'

/-- Model of urllib quote_plus with no extra safe characters: a space
becomes a plus, safe characters pass through, every other character is
percent-escaped bytewise in its UTF-8 encoding. -/
def quotePlusChars : List Char → List Char
  | [] => []
  | c :: r =>
    (if c = ' ' then ['+']
     else if alwaysSafeChar c then [c]
     else percentBytes (utf8EncodeChar c)) ++ quotePlusChars r

/-- Model of quote_plus on a string. -/
def quotePlus (s : String) : String := ⟨quotePlusChars s.data⟩

/-- Query parameter values that urlencode with doseq meets here. -/
inductive UParam where
  | s (v : String)
  | n (v : Int)
  | seq (vs : List UParam)

/-- Print of a parameter value with str() before quoting; the nested
sequence case is unreachable through urlencodePair. -/
def uParamStr : UParam → String
  | .s v => v
  | .n v => pyIntStr v
  | .seq _ => ""

/-- The key=value pairs one parameter contributes under doseq: a str value
gives one pair, a non-sequence value is printed with str() first, and a
sequence value gives one pair per element in order. -/
def urlencodePair (k : String) : UParam → List String
  | .s v => [quotePlus k ++ "=" ++ quotePlus v]
  | .n v => [quotePlus k ++ "=" ++ quotePlus (pyIntStr v)]
  | .seq vs => vs.map (fun e => quotePlus k ++ "=" ++ quotePlus (uParamStr e))

/-- Ampersand join of the encoded pairs. -/
def joinAmp : List String → String
  | [] => ""
  | [x] => x
  | x :: r => x ++ "&" ++ joinAmp r

/-- Model of safe_urlencode(params, doseq) (source lines 159-182; on
Python 3 it is the stdlib urlencode with doseq). -/
def urlencodeDoseq (params : List (String × UParam)) : String :=
  joinAmp (params.foldr (fun kv acc => urlencodePair kv.1 kv.2 ++ acc) [])

/-- Python dict assignment on an insertion-ordered mapping: replace the
value in place when the key exists, append otherwise. -/
def setKey (params : List (String × UParam)) (k : String) (v : UParam) :
    List (String × UParam) :=
  if (params.lookup k).isSome then
    params.map (fun kv => if kv.1 = k then (k, v) else kv)
  else params ++ [(k, v)]

/-- One outgoing HTTP request produced by the request helpers. -/
inductive HttpReq where
  | get (path : String)
  | post (path : String) (body : String) (headers : List (String × String))
  deriving DecidableEq, Repr

/-- Model of Solr._select (source lines 425-441): set wt=json, urlencode the
parameters; when the encoded form is under 1024 characters the request is a
GET with the querystring in the path, otherwise a POST of the encoded form
with the urlencoded content type. -/
def selectRequest (params : List (String × UParam)) : HttpReq :=
  let pe := urlencodeDoseq (setKey params "wt" (.s "json"))
  if pe.length < 1024 then .get ("select/?" ++ pe)
  else .post "select/" pe [("Content-type", "application/x-www-form-urlencoded; charset=utf-8")]

/-! ### ASCII facts about the encoded form -/

theorem alwaysSafeChar_ascii {c : Char} (h : alwaysSafeChar c = true) : c.toNat < 128 := by
  simp only [alwaysSafeChar, Bool.or_eq_true, Bool.and_eq_true, decide_eq_true_eq,
    beq_iff_eq] at h
  rcases h with ((((((⟨h1, h2⟩ | ⟨h1, h2⟩) | hd) | rfl) | rfl) | rfl) | rfl)
  · have := h2
    rw [Char.le_def, UInt32.le_def, BitVec.le_def] at this
    exact Nat.lt_of_le_of_lt this (by decide)
  · have := h2
    rw [Char.le_def, UInt32.le_def, BitVec.le_def] at this
    exact Nat.lt_of_le_of_lt this (by decide)
  · exact Nat.lt_of_le_of_lt (isDigit_toNat_bounds hd).2 (by decide)
  all_goals decide

theorem utf8EncodeNat_byte_bound {n : Nat} (hn : n < 0x110000) :
    ∀ b ∈ utf8EncodeNat n, b < 256 := by
  intro b hb
  unfold utf8EncodeNat at hb
  split at hb
  · simp only [List.mem_cons, List.not_mem_nil, or_false] at hb
    omega
  · split at hb
    · simp only [List.mem_cons, List.not_mem_nil, or_false] at hb
      rcases hb with h1 | h1 <;> omega
    · split at hb
      · simp only [List.mem_cons, List.not_mem_nil, or_false] at hb
        rcases hb with h1 | h1 | h1 <;> omega
      · simp only [List.mem_cons, List.not_mem_nil, or_false] at hb
        rcases hb with h1 | h1 | h1 | h1 <;> omega

theorem hexDigitChar_ascii {d : Nat} (h : d < 16) : (hexDigitChar d).toNat < 128 := by
  interval_cases d <;> decide

theorem percentBytes_ascii {l : List Nat} (h : ∀ b ∈ l, b < 256) :
    ∀ c ∈ percentBytes l, c.toNat < 128 := by
  induction l with
  | nil => simp [percentBytes]
  | cons b r ih =>
    intro c hc
    simp only [percentBytes, percentByte, List.cons_append, List.nil_append,
      List.mem_cons] at hc
    have hb : b < 256 := h b (List.mem_cons_self _ _)
    rcases hc with rfl | rfl | rfl | hc
    · decide
    · exact hexDigitChar_ascii (by omega)
    · exact hexDigitChar_ascii (by omega)
    · exact ih (fun x hx => h x (List.mem_cons_of_mem _ hx)) c hc

theorem quotePlusChars_ascii (l : List Char) : ∀ c ∈ quotePlusChars l, c.toNat < 128 := by
  induction l with
  | nil => simp [quotePlusChars]
  | cons c0 r ih =>
    intro c hc
    simp only [quotePlusChars, List.mem_append] at hc
    rcases hc with hc | hc
    · split at hc
      · simp only [List.mem_cons, List.not_mem_nil, or_false] at hc
        subst hc
        decide
      · split at hc
        · simp only [List.mem_cons, List.not_mem_nil, or_false] at hc
          subst hc
          exact alwaysSafeChar_ascii (by assumption)
        · refine percentBytes_ascii ?_ c hc
          refine utf8EncodeNat_byte_bound ?_
          rcases char_toNat_valid c0 with h | h <;> omega
    · exact ih c hc

theorem append_data_mem {a b : String} {c : Char} (h : c ∈ (a ++ b).data) :
    c ∈ a.data ∨ c ∈ b.data := by
  rw [String.data_append] at h
  exact List.mem_append.mp h

theorem urlencodePair_ascii (k : String) (v : UParam) :
    ∀ p ∈ urlencodePair k v, ∀ c ∈ p.data, c.toNat < 128 := by
  have hq : ∀ s : String, ∀ c ∈ (quotePlus s).data, c.toNat < 128 := by
    intro s c hc
    exact quotePlusChars_ascii s.data c hc
  have hpair : ∀ a b : String, ∀ c ∈ (quotePlus a ++ "=" ++ quotePlus b).data, c.toNat < 128 := by
    intro a b c hc
    rcases append_data_mem hc with hc | hc
    · rcases append_data_mem hc with hc | hc
      · exact hq a c hc
      · simp only [List.mem_cons, List.not_mem_nil, or_false] at hc
        subst hc
        decide
    · exact hq b c hc
  intro p hp
  match v with
  | .s w =>
    simp only [urlencodePair, List.mem_cons, List.not_mem_nil, or_false] at hp
    subst hp
    exact hpair k w
  | .n w =>
    simp only [urlencodePair, List.mem_cons, List.not_mem_nil, or_false] at hp
    subst hp
    exact hpair k (pyIntStr w)
  | .seq vs =>
    simp only [urlencodePair, List.mem_map] at hp
    obtain ⟨e, _, rfl⟩ := hp
    exact hpair k (uParamStr e)

theorem joinAmp_ascii {parts : List String} (h : ∀ p ∈ parts, ∀ c ∈ p.data, c.toNat < 128) :
    ∀ c ∈ (joinAmp parts).data, c.toNat < 128 := by
  induction parts with
  | nil => simp [joinAmp]
  | cons p r ih =>
    intro c hc
    match r with
    | [] => exact h p (List.mem_cons_self _ _) c hc
    | q :: r2 =>
      simp only [joinAmp] at hc
      rcases append_data_mem hc with hc | hc
      · rcases append_data_mem hc with hc | hc
        · exact h p (List.mem_cons_self _ _) c hc
        · simp only [List.mem_cons, List.not_mem_nil, or_false] at hc
          subst hc
          decide
      · exact ih (fun x hx => h x (List.mem_cons_of_mem _ hx)) c hc

theorem urlencodeDoseq_ascii (params : List (String × UParam)) :
    ∀ c ∈ (urlencodeDoseq params).data, c.toNat < 128 := by
  unfold urlencodeDoseq
  refine joinAmp_ascii ?_
  intro p hp
  induction params with
  | nil => simp at hp
  | cons kv r ih =>
    simp only [List.foldr_cons, List.mem_append] at hp
    rcases hp with hp | hp
    · exact urlencodePair_ascii kv.1 kv.2 p hp
    · exact ih hp

theorem utf8EncodeList_length_ascii {l : List Char} (h : ∀ c ∈ l, c.toNat < 128) :
    (utf8EncodeList l).length = l.length := by
  induction l with
  | nil => rfl
  | cons c r ih =>
    have hc : utf8EncodeChar c = [c.toNat] := utf8EncodeNat_ascii (h c (List.mem_cons_self _ _))
    simp only [utf8EncodeList, hc, List.cons_append, List.nil_append, List.length_cons]
    rw [ih (fun x hx => h x (List.mem_cons_of_mem _ hx))]

/-! ### C9 -/

/-- C9: the encoded querystring (with wt=json set) is pure ASCII, so its
byte count equals the character count the source compares; a form of 1024
bytes or more is sent as a POST of the form body with the urlencoded
content type, and a shorter form is sent as a GET with the querystring in
the select path. -/
theorem c9_long_query_routing (params : List (String × UParam)) :
    (forceBytes (urlencodeDoseq (setKey params "wt" (.s "json")))).length =
      (urlencodeDoseq (setKey params "wt" (.s "json"))).length ∧
    (1024 ≤ (forceBytes (urlencodeDoseq (setKey params "wt" (.s "json")))).length →
      selectRequest params = .post "select/" (urlencodeDoseq (setKey params "wt" (.s "json")))
        [("Content-type", "application/x-www-form-urlencoded; charset=utf-8")]) ∧
    ((forceBytes (urlencodeDoseq (setKey params "wt" (.s "json")))).length < 1024 →
      selectRequest params = .get ("select/?" ++ urlencodeDoseq (setKey params "wt" (.s "json")))) := by
  have hascii : (forceBytes (urlencodeDoseq (setKey params "wt" (.s "json")))).length =
      (urlencodeDoseq (setKey params "wt" (.s "json"))).length := by
    unfold forceBytes
    exact utf8EncodeList_length_ascii (urlencodeDoseq_ascii _)
  refine ⟨hascii, ?_, ?_⟩
  · intro hlong
    rw [hascii] at hlong
    unfold selectRequest
    rw [if_neg (by omega)]
  · intro hshort
    rw [hascii] at hshort
    unfold selectRequest
    rw [if_pos (by omega)]

/-- Witness for C9 at concrete inputs: with no parameters the encoded form
wt=json is 7 bytes, well under the threshold, and the request is the GET
with the querystring. -/
theorem c9_long_query_routing_witness :
    (forceBytes (urlencodeDoseq (setKey [] "wt" (.s "json")))).length < 1024 ∧
    selectRequest [] = .get "select/?wt=json" := by
  refine ⟨by decide, ?_⟩
  have h := (c9_long_query_routing []).2.2 (by decide)
  rw [h]
  rfl

/-! ## Term-suggest normalization (source lines 759-796) -/

/-- Decoded JSON values, as the response decoder produces them. -/
inductive Jv where
  | s (v : String)
  | n (v : Int)
  | b (v : Bool)
  | null
  | arr (l : List Jv)
  | obj (l : List (String × Jv))

/-- Elements of a list at the even positions (Python slice ls-0-2). -/
def everySecond : List Jv → List Jv
  | [] => []
  | x :: r =>
    match r with
    | [] => [x]
    | _ :: r2 => x :: everySecond r2

mutual

/-- Structural boolean equality on decoded JSON values, standing in for
Python equality of decoded response fragments. -/
def jvBeq : Jv → Jv → Bool
  | .s a, .s b => a == b
  | .n a, .n b => a == b
  | .b a, .b b => a == b
  | .null, .null => true
  | .arr a, .arr b => jvBeqList a b
  | .obj a, .obj b => jvBeqObj a b
  | _, _ => false

/-- Elementwise equality of JSON arrays. -/
def jvBeqList : List Jv → List Jv → Bool
  | [], [] => true
  | a :: ar, b :: br => jvBeq a b && jvBeqList ar br
  | _, _ => false

/-- Elementwise equality of JSON objects. -/
def jvBeqObj : List (String × Jv) → List (String × Jv) → Bool
  | [], [] => true
  | a :: ar, b :: br => (a.1 == b.1 && jvBeq a.2 b.2) && jvBeqObj ar br
  | _, _ => false

end

/-- Python dict insertion on an insertion-ordered pair list: a present key
keeps its position and takes the new value, a new key appends. -/
def dictInsert (d : List (Jv × Jv)) (k v : Jv) : List (Jv × Jv) :=
  if d.any (fun kv => jvBeq kv.1 k) then
    d.map (fun kv => if jvBeq kv.1 k then (kv.1, v) else kv)
  else d ++ [(k, v)]

/-- Python dict construction from a pair list, left to right. -/
def dictOfPairs (l : List (Jv × Jv)) : List (Jv × Jv) :=
  l.foldl (fun d kv => dictInsert d kv.1 kv.2) []

/-- The pairing loop of suggest_terms (source lines 790-791): two pops per
round, so an odd-length value list raises IndexError on the second pop. -/
def pairUp : List Jv → Except PyErr (List (Jv × Jv))
  | [] => .ok []
  | [_] => .error .indexError
  | x :: y :: r => (pairUp r).map (fun t => (x, y) :: t)

/-- Result-dict insertion, same Python dict semantics at the result type. -/
def resInsert (d : List (Jv × List (Jv × Jv))) (k : Jv) (v : List (Jv × Jv)) :
    List (Jv × List (Jv × Jv)) :=
  if d.any (fun kv => jvBeq kv.1 k) then
    d.map (fun kv => if jvBeq kv.1 k then (kv.1, v) else kv)
  else d ++ [(k, v)]

/-- The per-field loop of suggest_terms (source lines 787-793): each value
must be a list, whose elements pair up in order into the result mapping. -/
def suggestLoop : List (Jv × Jv) → List (Jv × List (Jv × Jv)) →
    Except PyErr (List (Jv × List (Jv × Jv)))
  | [], res => .ok res
  | (field, values) :: r, res =>
    match values with
    | .arr vs =>
      match pairUp vs with
      | .ok tmp => suggestLoop r (resInsert res field tmp)
      | .error e => .error e
    | _ => .error .attributeError

/-- Model of the normalization in Solr.suggest_terms (source lines 774-796):
take the terms entry of the decoded response, defaulting to an empty
mapping; a flat list (older protocol) zips its even and odd positions into
a mapping; a mapping (newer protocol) is used as is; then every field's
value list is paired into (term, count) pairs, in order. -/
def suggestTermsNormalize (decoded : List (String × Jv)) :
    Except PyErr (List (Jv × List (Jv × Jv))) :=
  let terms : Jv := ((decoded.lookup "terms").getD (.obj []))
  match terms with
  | .arr l => suggestLoop (dictOfPairs (List.zip (everySecond l) (everySecond l.tail))) []
  | .obj l => suggestLoop (l.map (fun kv => (Jv.s kv.1, kv.2))) []
  | _ => .error .attributeError

/-! ### C8 -/

/-- C8: the flat alternating list shape and the mapping shape of the terms
response normalize to the same field to (term, count) pair list. -/
theorem c8_term_suggest_normalization :
    suggestTermsNormalize
        [("terms", .arr [.s "color", .arr [.s "red", .n 5, .s "blue", .n 3]])] =
      .ok [(.s "color", [(.s "red", .n 5), (.s "blue", .n 3)])] ∧
    suggestTermsNormalize
        [("terms", .obj [("color", .arr [.s "red", .n 5, .s "blue", .n 3])])] =
      .ok [(.s "color", [(.s "red", .n 5), (.s "blue", .n 3)])] :=
  ⟨rfl, rfl⟩

/-! ## Update requests and delete (source lines 457-493 and 889-919) -/

/-- One outgoing update call: the update path with its query variables, the
message body, and the content-type header. -/
structure UpdateCall where
  path : String
  body : String
  headers : List (String × String)
  deriving DecidableEq, Repr

/-- Print of str(bool(x)).lower(). -/
def boolLower (b : Bool) : String := if b then "true" else "false"

/-- Model of Solr._update (source lines 457-493): a non-None commit appends
commit=..., otherwise a non-None softCommit appends softCommit=...;
waitFlush and waitSearcher append when non-None; the query variables join
the update path; the message is sanitized unless opted out; the body posts
with the XML content type. -/
def updateCall (message : String) (cleanCtrlChars : Bool)
    (commit softCommit waitFlush waitSearcher : Option Bool) : UpdateCall :=
  let queryVars :=
    (match commit with
     | some c => ["commit=" ++ boolLower c]
     | Option.none =>
       match softCommit with
       | some c2 => ["softCommit=" ++ boolLower c2]
       | Option.none => [])
    ++ (match waitFlush with | some w => ["waitFlush=" ++ boolLower w] | Option.none => [])
    ++ (match waitSearcher with | some w => ["waitSearcher=" ++ boolLower w] | Option.none => [])
  { path := if queryVars.isEmpty then "update/" else "update/?" ++ joinAmp queryVars
    body := if cleanCtrlChars then sanitize message else message
    headers := [("Content-type", "text/xml; charset=utf-8")] }

/-- Model of Solr.delete (source lines 889-919): exactly one of id and q
must be given; the validation raises ValueError synchronously, before any
request is built or sent; a valid call produces the update call for the
delete message (with softCommit False, the _update default). -/
def deleteCall (id q : Option String) (commit : Option Bool)
    (waitFlush waitSearcher : Option Bool) : Except PyErr UpdateCall :=
  match id, q with
  | Option.none, Option.none =>
    .error (.valueError "You must specify \x22id\x22 or \x22q\x22.")
  | some _, some _ =>
    .error (.valueError "You many only specify \x22id\x22 OR \x22q\x22, not both.")
  | some i, Option.none =>
    .ok (updateCall ("<delete><id>" ++ i ++ "</id></delete>") true commit (some false)
      waitFlush waitSearcher)
  | Option.none, some qq =>
    .ok (updateCall ("<delete><query>" ++ qq ++ "</query></delete>") true commit (some false)
      waitFlush waitSearcher)

/-! ### C6 -/

/-- C6: delete with neither or both of id and q fails with ValueError, a
kind distinct from the unified SolrError, and no update call is produced,
so no request is issued. -/
theorem c6_delete_validation (id q : Option String)
    (commit waitFlush waitSearcher : Option Bool)
    (h : (id = Option.none ∧ q = Option.none) ∨ (id.isSome = true ∧ q.isSome = true)) :
    (∃ m, deleteCall id q commit waitFlush waitSearcher = .error (.valueError m)) ∧
    (∀ c, ¬(deleteCall id q commit waitFlush waitSearcher = .ok c)) ∧
    (∀ m s, ¬(PyErr.valueError m = PyErr.solrError s)) := by
  have herr : ∃ m, deleteCall id q commit waitFlush waitSearcher = .error (.valueError m) := by
    rcases h with ⟨h1, h2⟩ | ⟨h1, h2⟩
    · subst h1
      subst h2
      exact ⟨_, rfl⟩
    · obtain ⟨i, rfl⟩ := Option.isSome_iff_exists.mp h1
      obtain ⟨qq, rfl⟩ := Option.isSome_iff_exists.mp h2
      exact ⟨_, rfl⟩
  obtain ⟨m, hm⟩ := herr
  refine ⟨⟨m, hm⟩, ?_, fun m s hc => PyErr.noConfusion hc⟩
  intro c hc
  rw [hm] at hc
  exact Except.noConfusion hc

/-- Witness for C6 at concrete inputs: neither given, and both given. -/
theorem c6_delete_validation_witness :
    (∃ m, deleteCall Option.none Option.none (some true) Option.none Option.none =
      .error (.valueError m)) ∧
    (∃ m, deleteCall (some "doc_12") (some "*:*") (some true) Option.none Option.none =
      .error (.valueError m)) :=
  ⟨(c6_delete_validation Option.none Option.none (some true) Option.none Option.none
      (Or.inl ⟨rfl, rfl⟩)).1,
   (c6_delete_validation (some "doc_12") (some "*:*") (some true) Option.none Option.none
      (Or.inr ⟨rfl, rfl⟩)).1⟩

/-! ## Error Scraper (source lines 503-578)

The scraper mixes substring tests on headers, a strict XML parse for the
structured Solr error, a regex heading search for Tomcat, a liberal parse
for Jetty and generic containers, and a final text normalization.  The XML
parser below models xml.etree.ElementTree.fromstring for plain documents
(elements, attributes, text); entity references, comments and doctypes are
not modelled and parse as errors or literal text, which no verified claim
exercises. -/

/-- Lowercasing of the basic latin letters, modelling str.lower() on the
ASCII header values the scraper inspects. -/
def lowerChar (c : Char) : Char :=
  if 'A' ≤ c ∧ c ≤ 'Z' then Char.ofNat (c.toNat + 32) else c

/-- ASCII lowercase of a string. -/
def lowerAscii (s : String) : String := ⟨s.data.map lowerChar⟩

/-- Does the first list start with the second. -/
def startsWithChars : List Char → List Char → Bool
  | _, [] => true
  | [], _ :: _ => false
  | a :: lr, b :: pr => a == b && startsWithChars lr pr

/-- Does the first list contain the second, modelling the Python in test on
strings. -/
def containsChars : List Char → List Char → Bool
  | [], p => p.isEmpty
  | a :: r, p => startsWithChars (a :: r) p || containsChars r p

/-- Python str.strip() whitespace set (ASCII part). -/
def isPyWs (c : Char) : Bool :=
  c == ' ' || c == '\t' || c == '\n' || c == '\r' || c == '\x0b' || c == '\x0c'

/-- Model of str.strip(). -/
def trimPy (s : String) : String :=
  ⟨((s.data.dropWhile isPyWs).reverse.dropWhile isPyWs).reverse⟩

/-- Model of str.replace(pat, "") for a nonempty pattern: remove the
non-overlapping occurrences left to right.  Fuel-based; the wrapper passes
the text length, which suffices because every step consumes input. -/
def removeAllChars (pat : List Char) : Nat → List Char → List Char
  | _, [] => []
  | 0, l => l
  | fuel + 1, c :: r =>
    if startsWithChars (c :: r) pat && !pat.isEmpty then
      removeAllChars pat fuel ((c :: r).drop pat.length)
    else c :: removeAllChars pat fuel r

/-- Removal of every occurrence of a pattern from a string. -/
def removeAll (pat : String) (s : String) : String :=
  ⟨removeAllChars pat.data s.data.length s.data⟩

/-- The final normalization of the scraped detail (source lines 572-577):
drop line breaks and literal br tags, then strip. -/
def scrapeNormalize (s : String) : String :=
  trimPy (removeAll "<br />" (removeAll "<br/>" (removeAll "\r" (removeAll "\n" s))))

/-- Parsed XML element: tag, attributes, text before the first child, and
child elements.  Text between or after children (the ElementTree tail) is
not kept; the scraper never reads it. -/
inductive XNode where
  | elem (tag : String) (attrs : List (String × String)) (text : Option String)
      (children : List XNode)

def xTag : XNode → String
  | .elem t _ _ _ => t

def xAttrs : XNode → List (String × String)
  | .elem _ a _ _ => a

def xText : XNode → Option String
  | .elem _ _ t _ => t

def xChildren : XNode → List XNode
  | .elem _ _ _ c => c

/-- XML name characters accepted by the parser model. -/
def isXmlNameChar (c : Char) : Bool :=
  c.isAlphanum || c == '-' || c == '_' || c == ':' || c == '.'

/-- XML whitespace. -/
def isXmlWs (c : Char) : Bool := c == ' ' || c == '\t' || c == '\n' || c == '\r'

/-- Leading name span. -/
def takeXmlName : List Char → (List Char × List Char)
  | [] => ([], [])
  | c :: r =>
    if isXmlNameChar c then
      let (a, b) := takeXmlName r
      (c :: a, b)
    else ([], c :: r)

/-- The double quote character. -/
def dquoteChar : Char := Char.ofNat 34

/-- The single quote character. -/
def squoteChar : Char := Char.ofNat 39

/-- Attribute list of an open tag: leading whitespace, then either the end
of the tag or name="value" pairs with either quote kind. -/
def parseXmlAttrs : Nat → List Char → Except PyErr (List (String × String) × List Char)
  | 0, _ => .error (.valueError "xml attrs fuel")
  | fuel + 1, l =>
    let l1 := l.dropWhile isXmlWs
    match l1 with
    | [] => .ok ([], [])
    | c :: r =>
      if c == '>' || c == '/' then .ok ([], c :: r)
      else
        let (nm, r1) := takeXmlName (c :: r)
        if nm.isEmpty then .error (.valueError "xml attr name")
        else
          match r1.dropWhile isXmlWs with
          | '=' :: r2 =>
            match r2.dropWhile isXmlWs with
            | q :: r3 =>
              if q == dquoteChar || q == squoteChar then
                let v := r3.takeWhile (fun x => !(x == q))
                match r3.dropWhile (fun x => !(x == q)) with
                | _ :: r4 =>
                  match parseXmlAttrs fuel r4 with
                  | .ok (rest, r5) => .ok ((String.mk nm, String.mk v) :: rest, r5)
                  | .error e => .error e
                | [] => .error (.valueError "xml attr quote")
              else .error (.valueError "xml attr quote")
            | [] => .error (.valueError "xml attr value")
          | _ => .error (.valueError "xml attr eq")

mutual

/-- One element: open tag with attributes, then either a self-closing slash
or content followed by the matching close tag. -/
def parseXmlElement : Nat → List Char → Except PyErr (XNode × List Char)
  | 0, _ => .error (.valueError "xml fuel")
  | fuel + 1, l =>
    match l with
    | '<' :: r =>
      let (nm, r1) := takeXmlName r
      if nm.isEmpty then .error (.valueError "xml element name")
      else
        match parseXmlAttrs (r1.length + 1) r1 with
        | .error e => .error e
        | .ok (attrs, r2) =>
          match r2 with
          | '/' :: '>' :: r3 => .ok (.elem (String.mk nm) attrs Option.none [], r3)
          | '>' :: r3 =>
            match parseXmlContent fuel r3 with
            | .error e => .error e
            | .ok (txt, kids, r4) =>
              match r4 with
              | '<' :: '/' :: r5 =>
                let (nm2, r6) := takeXmlName r5
                match r6.dropWhile isXmlWs with
                | '>' :: r7 =>
                  if nm2 == nm then .ok (.elem (String.mk nm) attrs txt kids, r7)
                  else .error (.valueError "xml tag mismatch")
                | _ => .error (.valueError "xml close tag")
              | _ => .error (.valueError "xml missing close")
          | _ => .error (.valueError "xml open tag")
    | _ => .error (.valueError "xml expected element")

/-- Content of an element: the text before the first child, then the child
elements, stopping in front of the close tag or at the end of input. -/
def parseXmlContent : Nat → List Char → Except PyErr (Option String × List XNode × List Char)
  | 0, _ => .error (.valueError "xml fuel")
  | fuel + 1, l =>
    let txt := l.takeWhile (fun x => !(x == '<'))
    let r := l.dropWhile (fun x => !(x == '<'))
    let t : Option String := if txt.isEmpty then Option.none else some (String.mk txt)
    match r with
    | '<' :: '/' :: r2 => .ok (t, [], '<' :: '/' :: r2)
    | '<' :: r2 =>
      match parseXmlElement fuel ('<' :: r2) with
      | .error e => .error e
      | .ok (kid, r3) =>
        match parseXmlKids fuel r3 with
        | .error e => .error e
        | .ok (kids, r4) => .ok (t, kid :: kids, r4)
    | _ => .ok (t, [], [])

/-- Remaining children of an element; text between children is dropped. -/
def parseXmlKids : Nat → List Char → Except PyErr (List XNode × List Char)
  | 0, _ => .error (.valueError "xml fuel")
  | fuel + 1, l =>
    let r := l.dropWhile (fun x => !(x == '<'))
    match r with
    | '<' :: '/' :: r2 => .ok ([], '<' :: '/' :: r2)
    | '<' :: r2 =>
      match parseXmlElement fuel ('<' :: r2) with
      | .error e => .error e
      | .ok (kid, r3) =>
        match parseXmlKids fuel r3 with
        | .error e => .error e
        | .ok (kids, r4) => .ok (kid :: kids, r4)
    | _ => .ok ([], [])

end

/-- Skip of the leading XML declaration or processing instructions. -/
def afterQMarkGt : List Char → List Char
  | [] => []
  | '?' :: '>' :: r => r
  | _ :: r => afterQMarkGt r

/-- Skip of leading whitespace and processing instructions before the root
element. -/
def skipPrologGo : Nat → List Char → List Char
  | 0, l => l
  | fuel + 1, l =>
    let l1 := l.dropWhile isXmlWs
    if startsWithChars l1 ['<', '?'] then skipPrologGo fuel (afterQMarkGt l1) else l1

/-- Model of ElementTree.fromstring: skip the prolog, parse the root
element, allow trailing whitespace only. -/
def xmlFromString (s : String) : Except PyErr XNode :=
  let l := skipPrologGo s.data.length s.data
  match parseXmlElement (s.data.length + 1) l with
  | .ok (n, rest) =>
    if (rest.dropWhile isXmlWs).isEmpty then .ok n
    else .error (.valueError "xml junk after document")
  | .error e => .error e

/-- Serialization back to text, modelling ElementTree.tostring (followed by
force_unicode in the source): attributes in order, a space-slash close for
an empty element, entity escaping not modelled. -/
def xAttrsToString : List (String × String) → String
  | [] => ""
  | (k, v) :: r =>
    " " ++ k ++ "=" ++ String.mk [dquoteChar] ++ v ++ String.mk [dquoteChar]
      ++ xAttrsToString r

mutual

def xmlToString : XNode → String
  | .elem tag attrs txt kids =>
    match txt, kids with
    | Option.none, [] => "<" ++ tag ++ xAttrsToString attrs ++ " />"
    | _, _ =>
      "<" ++ tag ++ xAttrsToString attrs ++ ">" ++ (txt.getD "") ++ xmlListToString kids
        ++ "</" ++ tag ++ ">"

def xmlListToString : List XNode → String
  | [] => ""
  | n :: r => xmlToString n ++ xmlListToString r

end

/-- Does a node match a path segment: the tag, and the name attribute when
the segment constrains it. -/
def matchesSeg (n : XNode) (tag : String) (attr : Option (String × String)) : Bool :=
  xTag n == tag &&
    (match attr with
     | Option.none => true
     | some (k, v) => (xAttrs n).lookup k == some v)

/-- Model of ElementTree find with a two-segment path: walk the matching
first-level children in order and return the first matching grandchild. -/
def findPath2 (root : XNode) (t1 : String) (a1 : Option (String × String))
    (t2 : String) (a2 : Option (String × String)) : Option XNode :=
  ((xChildren root).filter (fun c => matchesSeg c t1 a1)).findSome?
    (fun c => (xChildren c).find? (fun g => matchesSeg g t2 a2))

/-- Open of a heading tag at the head of the input: literal < then h1 in
either case, then the attribute run up to the closing angle bracket. -/
def h1Open : List Char → Option (List Char)
  | '<' :: c1 :: '1' :: r =>
    if c1 == 'h' || c1 == 'H' then
      match r.dropWhile (fun x => !(x == '>')) with
      | _ :: r2 => some r2
      | [] => Option.none
    else Option.none
  | _ => Option.none

/-- Does a closing heading tag start here, in either case. -/
def h1CloseAt : List Char → Bool
  | '<' :: '/' :: c1 :: '1' :: '>' :: _ => c1 == 'h' || c1 == 'H'
  | _ => false

/-- Text up to the first closing heading tag. -/
def h1Content : List Char → Option (List Char)
  | [] => Option.none
  | c :: r =>
    if h1CloseAt (c :: r) then some []
    else (h1Content r).map (fun t => c :: t)

/-- Model of the Tomcat heading regex search (source line 547): find the
first h1 open tag, take the text to the first close tag and trim the
surrounding whitespace.  The regex engine differs on pathological inputs
(whitespace-only or newline-bearing headings); the verified claims only
exercise the no-match case, and the first-match behaviour agrees. -/
def findH1 : List Char → Option String
  | [] => Option.none
  | c :: r =>
    match h1Open (c :: r) with
    | some afterOpen =>
      match h1Content afterOpen with
      | some content => some (trimPy ⟨content⟩)
      | Option.none => findH1 r
    | Option.none => findH1 r

/-- A response body as the transport hands it over: text or bytes. -/
inductive PyBody where
  | text (s : String)
  | binary (b : List Nat)

/-- Python truthiness of the optional reason: None and the empty string are
falsy. -/
def truthyOpt : Option String → Bool
  | Option.none => false
  | some s => !s.isEmpty

/-- Model of Solr._scrape_response (source lines 503-578).  The responding
server is identified by substring tests on the server header; a bytes body
is decoded strictly (and an invalid UTF-8 body therefore raises
UnicodeDecodeError); a body opening with an XML declaration is tried
against the structured Solr error nodes, returning early on a complete
match, and a msg or trace element with no text raises AttributeError from
the strip call; a Tomcat response is searched for a heading, others get a
liberal parse for the Jetty pre node or the generic title node; parse
failures degrade to the whole body; the collected detail is normalized at
the end. -/
def scrapeResponse (headers : List (String × String)) (response0 : PyBody) :
    Except PyErr (Option String × String) := do
  let serverString := (headers.lookup "server").getD ""
  let lower := lowerAscii serverString
  let serverType : Option String :=
    if !serverString.isEmpty && containsChars lower.data ("coyote".data) then some "tomcat"
    else if !serverString.isEmpty && containsChars lower.data ("jetty".data) then some "jetty"
    else Option.none
  let response : String ←
    match response0 with
    | .binary b =>
      match utf8DecodeStrict b with
      | some s => pure s
      | Option.none => Except.error PyErr.unicodeDecodeError
    | .text s => pure s
  let mut reason : Option String := Option.none
  let mut fullHtml : String := ""
  if startsWithChars response.data ("<?xml".data) then
    match xmlFromString response with
    | .ok soup =>
      let reasonNode := findPath2 soup "lst" (some ("name", "error")) "str" (some ("name", "msg"))
      let tbNode := findPath2 soup "lst" (some ("name", "error")) "str" (some ("name", "trace"))
      match reasonNode with
      | some nd =>
        match xText nd with
        | some t =>
          reason := some (trimPy t)
          fullHtml := trimPy t
        | Option.none => Except.error PyErr.attributeError
      | Option.none => pure ()
      match tbNode with
      | some nd =>
        match xText nd with
        | some t =>
          fullHtml := trimPy t
          if reason.isNone then
            reason := some (trimPy t)
        | Option.none => Except.error PyErr.attributeError
      | Option.none => pure ()
      if truthyOpt reason && !fullHtml.isEmpty then
        return (reason, fullHtml)
    | .error _ => pure ()
  if serverType == some "tomcat" then
    match findH1 response.data with
    | some m => reason := some m
    | Option.none => fullHtml := response
  else
    match xmlFromString response with
    | .ok domTree =>
      let reasonNode :=
        if serverType == some "jetty" then findPath2 domTree "body" Option.none "pre" Option.none
        else findPath2 domTree "head" Option.none "title" Option.none
      match reasonNode with
      | some nd => reason := xText nd
      | Option.none => pure ()
      if reason.isNone then
        fullHtml := xmlToString domTree
    | .error _ => fullHtml := response
  return (reason, scrapeNormalize fullHtml)

/-! ## Request Dispatcher error branch (source lines 360-423) -/

/-- One HTTP response as the transport delivers it. -/
structure HttpResponse where
  code : Nat
  reasonPhrase : String
  headers : List (String × String)
  body : PyBody

/-- The unified error message the HTTPError handler formats (source line
414): the status code, a colon and space, and the transport reason
phrase. -/
def httpErrorMessage (code : Nat) (reasonPhrase : String) : String :=
  pyIntStr (code : Int) ++ ": " ++ reasonPhrase

/-- Model of the outcome of Solr._send_request for a request that obtained
an HTTP response: the transport raises HTTPError for any status outside
2xx, and the handler turns it into SolrError with httpErrorMessage; a 2xx
response returns the body through force_unicode. -/
def sendRequestOutcome (resp : HttpResponse) : Except PyErr String :=
  if 200 ≤ resp.code ∧ resp.code < 300 then
    .ok (match resp.body with
         | .text s => s
         | .binary b => forceUnicodeBytes b)
  else .error (.solrError (httpErrorMessage resp.code resp.reasonPhrase))

/-! ### C1 and C2 -/

/-- C1 counterexample: a concrete non-2xx response whose scraped detail is
the body text, while the raised SolrError message is the status code and
the transport reason phrase only, so the scraped (reason: detail) text is
not part of the message. -/
theorem c1_scraper_not_in_message :
    sendRequestOutcome
        ⟨404, "Not Found", [("server", "Apache-Coyote/1.1")], .text "ERROR_DETAIL_XYZ"⟩ =
      .error (.solrError "404: Not Found") ∧
    scrapeResponse [("server", "Apache-Coyote/1.1")] (.text "ERROR_DETAIL_XYZ") =
      .ok (Option.none, "ERROR_DETAIL_XYZ") ∧
    ¬(("ERROR_DETAIL_XYZ").data <:+: ("404: Not Found").data) := by
  refine ⟨rfl, rfl, by decide⟩

/-- C1 amended: on every non-2xx HTTP response the unified SolrError message
is exactly the status code, a colon and a space, and the transport reason
phrase; the Error Scraper is never invoked on this path, so its output does
not reach the message. -/
theorem c1_non2xx_message (resp : HttpResponse)
    (h : ¬(200 ≤ resp.code ∧ resp.code < 300)) :
    sendRequestOutcome resp =
      .error (.solrError (pyIntStr (resp.code : Int) ++ ": " ++ resp.reasonPhrase)) := by
  unfold sendRequestOutcome
  rw [if_neg h]
  rfl

/-- Witness for C1 at a concrete response. -/
theorem c1_non2xx_message_witness :
    sendRequestOutcome ⟨500, "Internal Server Error", [], .text ""⟩ =
      .error (.solrError "500: Internal Server Error") :=
  (c1_non2xx_message ⟨500, "Internal Server Error", [], .text ""⟩ (by decide)).trans rfl

/-- C2: at the failing input, a bytes body that is not valid UTF-8, the
scraper raises UnicodeDecodeError from the strict decode instead of
returning a pair; the same unparseable content given as text degrades to
the whole body as the detail with no reason, as the claim expects. -/
theorem c2_scraper_raises_on_invalid_utf8 :
    scrapeResponse [] (.binary [0xFF]) = .error PyErr.unicodeDecodeError ∧
    scrapeResponse [] (.text "unparseable body") = .ok (Option.none, "unparseable body") := by
  refine ⟨rfl, rfl⟩

end PysolrTornado
